import Mathlib

/-!
Verification of the simulation core of the spiral-text animation program
(`MEMORY_SPIRAL_CODE.py`): spiral-position generation, tangent estimation,
the piecewise-linear temporal reveal function, the monotone one-sided bulge
function, and the per-frame composition policy (visible count, auto-zoom,
draw order), together with the CLI boundary that parses and clamps the
anomaly percentage.

Modelling conventions.  Python floats are modelled by exact arithmetic:
the reveal model and all percentage handling use only field operations and
comparisons, so they are embedded over `ℚ` and are fully computable; the
geometry (cos, sin, sqrt, exp, atan2) is embedded over `ℝ`.  A Python
float value is a rational, so the single `anomaly_frac` parameter shared
by both models is carried as a `ℚ` and cast to `ℝ` where it enters real
arithmetic.  Fallible list indexing (`points[i]`) is modelled with
`Option`.  The unbounded `while` loop of the spiral builder is modelled by
a fuel-indexed recursion; the fuel `105 * numChars + 1` is proved
sufficient (every loop iteration adds at least `spiralB * stepTheta` of
arc length, and `105 * spiralB * stepTheta > 1 = CHAR_SPACING` because
`π < 3.15`), so the embedded function computes exactly what the Python
loop computes.
-/

namespace MemorySpiral

noncomputable section

/-! ## Configuration constants (source lines 13-44) -/

/-- `CANVAS_SIZE = 800`. -/
def CANVAS_SIZE : ℕ := 800

/-- `MARGIN = 40`. -/
def MARGIN : ℕ := 40

/-- `FPS = 30`. -/
def FPS : ℕ := 30

/-- `DURATION_S = 5.0`. -/
def DURATION_S : ℚ := 5

/-- Python `int(x)` truncates toward zero. -/
def pytrunc (q : ℚ) : ℤ := if 0 ≤ q then ⌊q⌋ else ⌈q⌉

/-- `NUM_FRAMES = int(FPS * DURATION_S)` (source line 19). -/
def NUM_FRAMES : ℕ := (pytrunc ((FPS : ℚ) * DURATION_S)).toNat

/-- `FRAME_DURATION_MS = int(1000 / FPS)` (source line 20). -/
def FRAME_DURATION_MS : ℤ := pytrunc (1000 / (FPS : ℚ))

/-- `INITIAL_RADIUS = 0.0`. -/
def INITIAL_RADIUS : ℝ := 0

/-- `COIL_SPACING = 3.0`. -/
def COIL_SPACING : ℝ := 3

/-- `CHAR_SPACING = 1.0`. -/
def CHAR_SPACING : ℝ := 1

/-- `SLOW_CHARS_NOMINAL = 150`. -/
def SLOW_CHARS_NOMINAL : ℚ := 150

/-- `SLOW_DURATION = 1.5`. -/
def SLOW_DURATION : ℚ := 3/2

/-- `BULGE_AMP = 0.4`. -/
def BULGE_AMP : ℝ := 2/5

/-- `BULGE_SIGMA = 0.04`. -/
def BULGE_SIGMA : ℝ := 1/25

/-! ## TemporalRevealModel: `chars_revealed_at_time` (source lines 133-178)

The function's local bindings (`i0`, `W_chars`, `i1`, `i2`, `t1`, `t2`,
the three slopes, the piecewise value `C`) are named definitions here so
that the breakpoint-continuity statements can mention the individual
pieces of the curve. -/

/-- `max(0.0, min(1.0, anomaly_frac))` — the clamp both models apply to
their fraction argument (source lines 144 and 197). -/
def clamp01 (x : ℚ) : ℚ := max 0 (min 1 x)

/-- `i0 = a * (N - 1)` (source line 147). -/
def reveal_i0 (N : ℕ) (a : ℚ) : ℚ := a * ((N : ℚ) - 1)

/-- `W_chars = min(float(slow_chars_nominal), float(N))` (source line 148). -/
def reveal_Wchars (N : ℕ) : ℚ := min SLOW_CHARS_NOMINAL (N : ℚ)

/-- `halfW = W_chars / 2` (source line 149). -/
def reveal_halfW (N : ℕ) : ℚ := reveal_Wchars N / 2

/-- `i1 = max(0.0, i0 - halfW)` (source line 150). -/
def reveal_i1 (N : ℕ) (a : ℚ) : ℚ := max 0 (reveal_i0 N a - reveal_halfW N)

/-- `i2 = min(float(N), i0 + halfW)` (source line 151). -/
def reveal_i2 (N : ℕ) (a : ℚ) : ℚ := min (N : ℚ) (reveal_i0 N a + reveal_halfW N)

/-- `W_eff = max(1.0, i2 - i1)` (source line 152). -/
def reveal_Weff (N : ℕ) (a : ℚ) : ℚ := max 1 (reveal_i2 N a - reveal_i1 N a)

/-- `t1 = max(0.0, t_center - half_T)` with `t_center = a * D`,
`half_T = slow_duration / 2` (source lines 155-157). -/
def reveal_t1 (a : ℚ) : ℚ := max 0 (a * DURATION_S - SLOW_DURATION / 2)

/-- `t2 = min(D, t_center + half_T)` (source line 158). -/
def reveal_t2 (a : ℚ) : ℚ := min DURATION_S (a * DURATION_S + SLOW_DURATION / 2)

/-- `slow_slope = W_eff / (t2 - t1)` (source line 163). -/
def reveal_slowSlope (N : ℕ) (a : ℚ) : ℚ := reveal_Weff N a / (reveal_t2 a - reveal_t1 a)

/-- `pre_slope = i1 / t1 if t1 > 0 else 0.0` (source line 164). -/
def reveal_preSlope (N : ℕ) (a : ℚ) : ℚ :=
  if 0 < reveal_t1 a then reveal_i1 N a / reveal_t1 a else 0

/-- `post_slope = (N - i2) / (D - t2) if D > t2 else 0.0` (source line 165). -/
def reveal_postSlope (N : ℕ) (a : ℚ) : ℚ :=
  if reveal_t2 a < DURATION_S then ((N : ℚ) - reveal_i2 N a) / (DURATION_S - reveal_t2 a) else 0

/-- The pre-window linear piece `pre_slope * t` (source line 170). -/
def reveal_pre (N : ℕ) (a t : ℚ) : ℚ := reveal_preSlope N a * t

/-- The slow-window linear piece `i1 + slow_slope * (t - t1)` (source line 172). -/
def reveal_mid (N : ℕ) (a t : ℚ) : ℚ :=
  reveal_i1 N a + reveal_slowSlope N a * (t - reveal_t1 a)

/-- The post-window linear piece `i2 + post_slope * (t - t2)` (source line 174). -/
def reveal_post (N : ℕ) (a t : ℚ) : ℚ :=
  reveal_i2 N a + reveal_postSlope N a * (t - reveal_t2 a)

/-- The unclamped piecewise value `C` (source lines 167-176). -/
def reveal_C (N : ℕ) (a t : ℚ) : ℚ :=
  if t ≤ 0 then 0
  else if t < reveal_t1 a then reveal_pre N a t
  else if t ≤ reveal_t2 a then reveal_mid N a t
  else if t < DURATION_S then reveal_post N a t
  else (N : ℚ)

/-- `chars_revealed_at_time(t, num_chars, anomaly_frac)` (source lines 133-178). -/
def chars_revealed_at_time (t : ℚ) (numChars : ℕ) (anomalyFrac : ℚ) : ℚ :=
  if numChars ≤ 0 then 0
  else if numChars = 1 then (if 0 ≤ t then 1 else 0)
  else
    let a := clamp01 anomalyFrac
    if reveal_t2 a ≤ reveal_t1 a then (numChars : ℚ) * min 1 (max 0 (t / DURATION_S))
    else max 0 (min (numChars : ℚ) (reveal_C numChars a t))

/-! ## BulgeModel: `compute_bulge_deltas` (source lines 185-216) -/

/-- `t_char = i / (num_chars - 1)` (source line 201).  This is exact
rational arithmetic; note the source reaches it only for `num_chars ≥ 2`. -/
def bulge_tchar (numChars i : ℕ) : ℚ := (i : ℚ) / ((numChars : ℚ) - 1)

/-- `d = (t_char - a) / max(1e-9, BULGE_SIGMA)` (source line 205). -/
def bulge_d (numChars : ℕ) (a : ℚ) (i : ℕ) : ℝ :=
  ((bulge_tchar numChars i - a : ℚ) : ℝ) / max (1/1000000000) BULGE_SIGMA

/-- The raw (pre-monotonization) bulge delta of character `i`
(source lines 200-207): zero for `t_char ≤ a`, otherwise
`BULGE_AMP * (1.0 - exp(-0.5 * d * d))`. -/
def bulge_raw (numChars : ℕ) (a : ℚ) (i : ℕ) : ℝ :=
  if bulge_tchar numChars i ≤ a then 0
  else BULGE_AMP * (1 - Real.exp (-(1/2) * bulge_d numChars a i * bulge_d numChars a i))

/-- The running-maximum pass (source lines 210-215): `max_so_far` starts
at `0.0` and each output is the maximum seen so far. -/
def runningMax (m : ℝ) : List ℝ → List ℝ
  | [] => []
  | d :: rest =>
    let m' := if d > m then d else m
    m' :: runningMax m' rest

/-- `compute_bulge_deltas(num_chars, anomaly_frac)` (source lines 185-216). -/
def compute_bulge_deltas (numChars : ℕ) (anomalyFrac : ℚ) : List ℝ :=
  if numChars ≤ 0 then []
  else if numChars = 1 then [0]
  else
    runningMax 0 ((List.range numChars).map (bulge_raw numChars (clamp01 anomalyFrac)))

/-! ## SpiralPathBuilder: `generate_spiral_positions` (source lines 61-104)

The Python `while len(points) < num_chars` loop is embedded as a
fuel-indexed recursion on an explicit state record.  Beyond the source's
loop variables, the state carries one ghost field `arcs`: the arc-length
position (along the sampled polyline, which is exactly the length the
source accumulates in `accumulated_length`) at which each emitted point
was placed, i.e. `accumulated - ds + t * ds` for the segment fraction `t`
the source interpolates with.  The fuel `105 * numChars + 1` is proved
sufficient for the loop to emit all `numChars` points, and the loop stops
as soon as the guard fails, so extra fuel does not change the result. -/

/-- `step_theta = 0.02` (source line 80). -/
def stepTheta : ℝ := 1/50

/-- `b = coil_spacing / (2.0 * math.pi)` (source line 69). -/
def spiralB : ℝ := COIL_SPACING / (2 * Real.pi)

/-- `r = a + b * theta` for the default `a = initial_radius = 0`
(source lines 68, 73, 84). -/
def spiralR (θ : ℝ) : ℝ := INITIAL_RADIUS + spiralB * θ

/-- Loop state of `generate_spiral_positions`: emitted points, ghost
arc-length positions, and the variables `theta`, `last_x`, `last_y`,
`accumulated_length`, `target_length` of the source. -/
structure SpiralState where
  points : List (ℝ × ℝ × ℝ)
  arcs : List ℝ
  theta : ℝ
  lastX : ℝ
  lastY : ℝ
  accumulated : ℝ
  targetLength : ℝ

/-- The inner `while accumulated_length >= target_length and
len(points) < num_chars` loop (source lines 94-100): interpolate a point
at fraction `t = 1.0 - excess / ds if ds != 0 else 0.0` along the current
segment, append it, and advance the target by `char_spacing`.  The ghost
`arcs` entry `accumulated - ds + t * ds` is the polyline arc-length
position of the interpolated point. -/
def innerEmit (numChars : ℕ) (dx dy ds θ : ℝ) : ℕ → SpiralState → SpiralState
  | 0, s => s
  | fuel + 1, s =>
    if s.targetLength ≤ s.accumulated ∧ s.points.length < numChars then
      let excess := s.accumulated - s.targetLength
      let t := if ds ≠ 0 then 1 - excess / ds else 0
      let px := s.lastX + t * dx
      let py := s.lastY + t * dy
      innerEmit numChars dx dy ds θ fuel
        { s with
          points := s.points ++ [(px, py, θ)]
          arcs := s.arcs ++ [s.accumulated - ds + t * ds]
          targetLength := s.targetLength + CHAR_SPACING }
    else s

/-- One iteration of the outer loop (source lines 82-102): advance `theta`
by `step_theta`, sample the spiral, accumulate the chord length `ds`, run
the inner emission loop, then update `last_x, last_y`. -/
def outerStep (numChars : ℕ) (s : SpiralState) : SpiralState :=
  let θ' := s.theta + stepTheta
  let x := spiralR θ' * Real.cos θ'
  let y := spiralR θ' * Real.sin θ'
  let dx := x - s.lastX
  let dy := y - s.lastY
  let ds := Real.sqrt (dx ^ 2 + dy ^ 2)
  let s1 := innerEmit numChars dx dy ds θ' (numChars + 1)
    { s with accumulated := s.accumulated + ds }
  { s1 with theta := θ', lastX := x, lastY := y }

/-- The outer `while len(points) < num_chars` loop (source line 82),
fuel-indexed. -/
def outerLoop (numChars : ℕ) : ℕ → SpiralState → SpiralState
  | 0, s => s
  | fuel + 1, s =>
    if s.points.length < numChars then outerLoop numChars fuel (outerStep numChars s)
    else s

/-- The initial loop state (source lines 71-79): `theta = 0`, the start
point on the spiral, zero accumulated and target length. -/
def initState : SpiralState :=
  { points := []
    arcs := []
    theta := 0
    lastX := spiralR 0 * Real.cos 0
    lastY := spiralR 0 * Real.sin 0
    accumulated := 0
    targetLength := 0 }

/-- The final loop state for `num_chars` characters, with the proved-
sufficient fuel. -/
def spiralFinalState (numChars : ℕ) : SpiralState :=
  outerLoop numChars (105 * numChars + 1) initState

/-- `generate_spiral_positions(num_chars)` with the default spacing
parameters (source lines 61-104). -/
def generate_spiral_positions (numChars : ℕ) : List (ℝ × ℝ × ℝ) :=
  (spiralFinalState numChars).points

/-- Ghost output: the polyline arc-length position of each emitted point. -/
def spiralArcs (numChars : ℕ) : List ℝ :=
  (spiralFinalState numChars).arcs

/-- Invariant of the emission loop: at most `numChars` points, the next
target is `len * char_spacing`, and the emitted arc positions are exactly
`0, char_spacing, 2 * char_spacing, ...`. -/
def InnerInv (numChars : ℕ) (s : SpiralState) : Prop :=
  s.points.length ≤ numChars ∧
  s.targetLength = s.points.length * CHAR_SPACING ∧
  s.arcs = (List.range s.points.length).map fun k : ℕ => (k : ℝ) * CHAR_SPACING

/-- Invariant of the outer loop: the emission invariant plus the sampling
variables sitting on the spiral at a non-negative angle. -/
def LoopInv (numChars : ℕ) (s : SpiralState) : Prop :=
  InnerInv numChars s ∧
  0 ≤ s.theta ∧
  s.lastX = spiralR s.theta * Real.cos s.theta ∧
  s.lastY = spiralR s.theta * Real.sin s.theta

/-- After a full outer iteration: either all points are emitted, or the
accumulated length has not yet reached the next target. -/
def LoopPost (numChars : ℕ) (s : SpiralState) : Prop :=
  s.points.length = numChars ∨ s.accumulated < s.targetLength

/-! ## TangentEstimator: `compute_tangent_angles` (source lines 107-126)

Python list indexing `points[i]` raises `IndexError` when out of bounds;
it is modelled with `Option`, so the function returns `none` exactly when
some branch indexes outside the list (which happens for a single-point
input, where the `i == 0` branch reads `points[1]`). -/

/-- `math.atan2(y, x)`. -/
def pyAtan2 (y x : ℝ) : ℝ :=
  if 0 < x then Real.arctan (y / x)
  else if x < 0 then
    (if 0 ≤ y then Real.arctan (y / x) + Real.pi else Real.arctan (y / x) - Real.pi)
  else if 0 < y then Real.pi / 2
  else if y < 0 then -(Real.pi / 2)
  else 0

/-- `math.degrees`. -/
def degrees (x : ℝ) : ℝ := x * 180 / Real.pi

/-- The neighbor pair used for point `i` (source lines 112-120): `(i, i+1)`
at the first point, `(i-1, i)` at the last, `(i-1, i+1)` in between;
`none` when an index is out of bounds. -/
def tangentPair (points : List (ℝ × ℝ × ℝ)) (i : ℕ) :
    Option ((ℝ × ℝ × ℝ) × (ℝ × ℝ × ℝ)) :=
  if i = 0 then
    points[i]?.bind fun p1 => (points[i + 1]?).map fun p2 => (p1, p2)
  else if i = points.length - 1 then
    points[i - 1]?.bind fun p1 => (points[i]?).map fun p2 => (p1, p2)
  else
    points[i - 1]?.bind fun p1 => (points[i + 1]?).map fun p2 => (p1, p2)

/-- `compute_tangent_angles(points)` (source lines 107-126): the rotation
angle `degrees(atan2(y2 - y1, x2 - x1))` per point, or `none` if any
neighbor access is out of bounds. -/
def compute_tangent_angles (points : List (ℝ × ℝ × ℝ)) : Option (List ℝ) :=
  (List.range points.length).mapM fun i =>
    (tangentPair points i).map fun pq =>
      degrees (pyAtan2 (pq.2.2.1 - pq.1.2.1) (pq.2.1 - pq.1.1))

/-! ## FrameComposer: `create_spiral_gif` frame loop (source lines 244-312)

Only the numeric frame policy is modelled; glyph rasterization and GIF
encoding are external collaborators.  Per frame `frame_idx`, the time is
`t = frame_idx / FPS`, the visible count is
`max(1, min(num_chars, int(C)))`, the auto-zoom divisor is the maximum
bulge-adjusted visible radius, and the draw loop emits the visible
non-space characters in index order (the geometric payload of a draw
instruction is not needed by any claim and is elided). -/

/-- `canvas_center = CANVAS_SIZE // 2` (source line 244). -/
def canvas_center : ℕ := CANVAS_SIZE / 2

/-- `max_r_canvas = canvas_center - MARGIN` (source line 245). -/
def max_r_canvas : ℕ := canvas_center - MARGIN

/-- `t = frame_idx / FPS` (source line 250). -/
def frame_time (frameIdx : ℕ) : ℚ := (frameIdx : ℚ) / (FPS : ℚ)

/-- `max_char_index = max(1, min(num_chars, int(C)))` (source line 252). -/
def visible_count (t : ℚ) (numChars : ℕ) (anomalyFrac : ℚ) : ℤ :=
  max 1 (min (numChars : ℤ) (pytrunc (chars_revealed_at_time t numChars anomalyFrac)))

/-- `base_radii = [math.hypot(x, y) for (x, y, _) in positions]`
(source line 239). -/
def base_radii (numChars : ℕ) : List ℝ :=
  (generate_spiral_positions numChars).map fun p => Real.sqrt (p.1 ^ 2 + p.2.1 ^ 2)

/-- `base_radii[i] or 1e-6` (source line 257): Python `or` replaces a
falsy (zero) float by the fallback. -/
def pyOrEps (r : ℝ) : ℝ := if r = 0 then 1/1000000 else r

/-- The list `visible_adj_r` of bulge-adjusted radii of the visible
characters (source lines 255-259). -/
def visible_adj_r (numChars : ℕ) (anomalyFrac : ℚ) (k : ℕ) : List ℝ :=
  (List.range k).map fun i =>
    pyOrEps ((base_radii numChars).getD i 0) * (1 + (compute_bulge_deltas numChars anomalyFrac).getD i 0)

/-- `current_max_r = max(visible_adj_r) if visible_adj_r else 1.0`
(source line 261). -/
def current_max_r (numChars : ℕ) (anomalyFrac : ℚ) (k : ℕ) : ℝ :=
  match visible_adj_r numChars anomalyFrac k with
  | [] => 1
  | x :: xs => xs.foldl max x

/-- `scale = max_r_canvas / current_max_r if current_max_r else 1.0`
(source line 262) at frame time `t`. -/
def frame_scale (numChars : ℕ) (anomalyFrac : ℚ) (t : ℚ) : ℝ :=
  let m := current_max_r numChars anomalyFrac (visible_count t numChars anomalyFrac).toNat
  if m ≠ 0 then (max_r_canvas : ℝ) / m else 1

/-- The per-frame draw loop (source lines 266-308) projected to the
emission order of `(index, character)`: indices `0 ≤ i < max_char_index`
in order, skipping `ch == " "` via `continue`. -/
def frame_draw_list (chars : List Char) (t : ℚ) (anomalyFrac : ℚ) : List (ℕ × Char) :=
  (List.range (visible_count t chars.length anomalyFrac).toNat).filterMap fun i =>
    if chars.getD i ' ' = ' ' then none else some (i, chars.getD i ' ')

/-- The times of the frames produced (source line 249:
`for frame_idx in range(NUM_FRAMES)`). -/
def frame_times : List ℚ := (List.range NUM_FRAMES).map frame_time

/-- The `duration` and `loop` arguments handed to the GIF encoder
(source lines 314-320). -/
structure GifSaveArgs where
  duration : ℤ
  loopCount : ℤ

/-- `frames[0].save(..., duration=FRAME_DURATION_MS, loop=0)`. -/
def gif_save_args : GifSaveArgs := ⟨FRAME_DURATION_MS, 0⟩

/-! ## CLI boundary (source lines 362-374 and 234) -/

/-- `float(raw)` with the `except: anomaly_pct = 70.0` fallback
(source lines 368-371); an unparseable input is `none`. -/
def parse_anomaly_pct (raw : Option ℚ) : ℚ := raw.getD 70

/-- `anomaly_pct = max(0, min(100, anomaly_pct))` (source line 373). -/
def clamp_pct (p : ℚ) : ℚ := max 0 (min 100 p)

/-- `anomaly_frac = max(0.0, min(1.0, anomaly_pct / 100.0))`
(source line 234). -/
def anomaly_frac_of_pct (p : ℚ) : ℚ := max 0 (min 1 (p / 100))

/-- The anomaly fraction reaching the models, as a function of the raw
CLI input. -/
def main_anomaly_frac (raw : Option ℚ) : ℚ :=
  anomaly_frac_of_pct (clamp_pct (parse_anomaly_pct raw))

end

/-! ## Lemmas: clamp and reveal-window facts -/


/-- The clamp in `clamp01` lands in `[0,1]`. -/
theorem clamp01_mem (x : ℚ) : 0 ≤ clamp01 x ∧ clamp01 x ≤ 1 := by
  unfold clamp01
  constructor
  · exact le_max_left 0 _
  · exact max_le (by norm_num) (min_le_left 1 x)

/-- `clamp01` is the identity on `[0,1]`. -/
theorem clamp01_eq {x : ℚ} (h0 : 0 ≤ x) (h1 : x ≤ 1) : clamp01 x = x := by
  unfold clamp01
  rw [min_eq_right h1, max_eq_right h0]

/-- The slow time window never collapses: `t1 < t2` for every clamped
fraction (with constants `D = 5`, `half_T = 0.75`). -/
theorem reveal_t1_lt_t2 {a : ℚ} (h0 : 0 ≤ a) (h1 : a ≤ 1) : reveal_t1 a < reveal_t2 a := by
  unfold reveal_t1 reveal_t2 DURATION_S SLOW_DURATION
  rcases max_cases 0 (a * 5 - 3/2/2) with ⟨e1, l1⟩ | ⟨e1, l1⟩ <;>
    rcases min_cases 5 (a * 5 + 3/2/2) with ⟨e2, l2⟩ | ⟨e2, l2⟩ <;>
      rw [e1, e2] <;> linarith

theorem reveal_t1_nonneg (a : ℚ) : 0 ≤ reveal_t1 a := le_max_left 0 _

theorem reveal_t2_le_D (a : ℚ) : reveal_t2 a ≤ DURATION_S := min_le_left _ _

theorem reveal_i1_nonneg (N : ℕ) (a : ℚ) : 0 ≤ reveal_i1 N a := le_max_left 0 _

theorem reveal_i2_le_N (N : ℕ) (a : ℚ) : reveal_i2 N a ≤ (N : ℚ) := min_le_left _ _

/-- For `N ≥ 2` and a clamped fraction, the character window spans at
least one character: `i1 + 1 ≤ i2`. -/
theorem reveal_i1_add_one_le_i2 {N : ℕ} (hN : 2 ≤ N) {a : ℚ} (h0 : 0 ≤ a) (h1 : a ≤ 1) :
    reveal_i1 N a + 1 ≤ reveal_i2 N a := by
  have hN2 : (2 : ℚ) ≤ (N : ℚ) := by exact_mod_cast hN
  have hW : (1 : ℚ) ≤ reveal_halfW N := by
    unfold reveal_halfW reveal_Wchars SLOW_CHARS_NOMINAL
    rcases min_cases (150 : ℚ) (N : ℚ) with ⟨e, l⟩ | ⟨e, l⟩ <;> rw [e] <;> linarith
  have hi0l : 0 ≤ reveal_i0 N a := by
    unfold reveal_i0; exact mul_nonneg h0 (by linarith)
  have hi0u : reveal_i0 N a ≤ (N : ℚ) - 1 := by
    unfold reveal_i0
    nlinarith
  have hWN : reveal_halfW N ≤ (N : ℚ) / 2 := by
    unfold reveal_halfW reveal_Wchars SLOW_CHARS_NOMINAL
    rcases min_cases (150 : ℚ) (N : ℚ) with ⟨e, l⟩ | ⟨e, l⟩ <;> rw [e] <;> linarith
  unfold reveal_i1 reveal_i2
  rcases max_cases 0 (reveal_i0 N a - reveal_halfW N) with ⟨e1, l1⟩ | ⟨e1, l1⟩ <;>
    rcases min_cases (N : ℚ) (reveal_i0 N a + reveal_halfW N) with ⟨e2, l2⟩ | ⟨e2, l2⟩ <;>
      rw [e1, e2] <;> linarith

/-- For `N ≥ 2`, `W_eff = i2 - i1` (the `max(1.0, ...)` never bites). -/
theorem reveal_Weff_eq {N : ℕ} (hN : 2 ≤ N) {a : ℚ} (h0 : 0 ≤ a) (h1 : a ≤ 1) :
    reveal_Weff N a = reveal_i2 N a - reveal_i1 N a := by
  have := reveal_i1_add_one_le_i2 hN h0 h1
  unfold reveal_Weff
  rw [max_eq_right (by linarith)]



theorem reveal_slowSlope_nonneg {N : ℕ} (hN : 2 ≤ N) {a : ℚ} (h0 : 0 ≤ a) (h1 : a ≤ 1) :
    0 ≤ reveal_slowSlope N a := by
  unfold reveal_slowSlope
  have ht := reveal_t1_lt_t2 h0 h1
  have hW : (1 : ℚ) ≤ reveal_Weff N a := le_max_left 1 _
  exact div_nonneg (by linarith) (by linarith)

theorem reveal_preSlope_nonneg (N : ℕ) (a : ℚ) : 0 ≤ reveal_preSlope N a := by
  unfold reveal_preSlope
  split_ifs with h
  · exact div_nonneg (reveal_i1_nonneg N a) (le_of_lt h)
  · exact le_refl 0

theorem reveal_postSlope_nonneg (N : ℕ) (a : ℚ) : 0 ≤ reveal_postSlope N a := by
  unfold reveal_postSlope
  split_ifs with h
  · exact div_nonneg (by linarith [reveal_i2_le_N N a]) (by linarith)
  · exact le_refl 0

/-- Continuity identity at `t1`: when `t1 > 0` the pre piece meets the
slow piece there. -/
theorem reveal_pre_eq_mid_at_t1 (N : ℕ) {a : ℚ} (ht : 0 < reveal_t1 a) :
    reveal_pre N a (reveal_t1 a) = reveal_mid N a (reveal_t1 a) := by
  unfold reveal_pre reveal_mid reveal_preSlope
  rw [if_pos ht]
  field_simp

/-- Continuity identity at `t2` (for `N ≥ 2`): the slow piece meets the
post piece there. -/
theorem reveal_mid_eq_post_at_t2 {N : ℕ} (hN : 2 ≤ N) {a : ℚ} (h0 : 0 ≤ a) (h1 : a ≤ 1) :
    reveal_mid N a (reveal_t2 a) = reveal_post N a (reveal_t2 a) := by
  have ht := reveal_t1_lt_t2 h0 h1
  have hne : reveal_t2 a - reveal_t1 a ≠ 0 := by linarith
  unfold reveal_mid reveal_post reveal_slowSlope
  rw [reveal_Weff_eq hN h0 h1, div_mul_cancel₀ _ hne]
  ring

/-- The slow piece evaluated at `t2` is `i2` (for `N ≥ 2`). -/
theorem reveal_mid_at_t2 {N : ℕ} (hN : 2 ≤ N) {a : ℚ} (h0 : 0 ≤ a) (h1 : a ≤ 1) :
    reveal_mid N a (reveal_t2 a) = reveal_i2 N a := by
  have ht := reveal_t1_lt_t2 h0 h1
  have hne : reveal_t2 a - reveal_t1 a ≠ 0 := by linarith
  unfold reveal_mid reveal_slowSlope
  rw [reveal_Weff_eq hN h0 h1, div_mul_cancel₀ _ hne]
  ring

/-- The post piece evaluated at `D` is `N`, when `t2 < D`. -/
theorem reveal_post_at_D {N : ℕ} {a : ℚ} (h : reveal_t2 a < DURATION_S) :
    reveal_post N a DURATION_S = (N : ℚ) := by
  have hne : DURATION_S - reveal_t2 a ≠ 0 := by linarith
  unfold reveal_post reveal_postSlope
  rw [if_pos h, div_mul_cancel₀ _ hne]
  ring



theorem reveal_C_eval_zero {N : ℕ} {a t : ℚ} (h : t ≤ 0) : reveal_C N a t = 0 := by
  unfold reveal_C; rw [if_pos h]

theorem reveal_C_eval_pre {N : ℕ} {a t : ℚ} (h0 : ¬ t ≤ 0) (h : t < reveal_t1 a) :
    reveal_C N a t = reveal_pre N a t := by
  unfold reveal_C; rw [if_neg h0, if_pos h]

theorem reveal_C_eval_mid {N : ℕ} {a t : ℚ} (h0 : ¬ t ≤ 0) (h : ¬ t < reveal_t1 a)
    (h2 : t ≤ reveal_t2 a) : reveal_C N a t = reveal_mid N a t := by
  unfold reveal_C; rw [if_neg h0, if_neg h, if_pos h2]

theorem reveal_C_eval_post {N : ℕ} {a t : ℚ} (h0 : ¬ t ≤ 0) (h : ¬ t < reveal_t1 a)
    (h2 : ¬ t ≤ reveal_t2 a) (h3 : t < DURATION_S) : reveal_C N a t = reveal_post N a t := by
  unfold reveal_C; rw [if_neg h0, if_neg h, if_neg h2, if_pos h3]

theorem reveal_C_eval_end {N : ℕ} {a t : ℚ} (h0 : ¬ t ≤ 0) (h : ¬ t < reveal_t1 a)
    (h2 : ¬ t ≤ reveal_t2 a) (h3 : ¬ t < DURATION_S) : reveal_C N a t = (N : ℚ) := by
  unfold reveal_C; rw [if_neg h0, if_neg h, if_neg h2, if_neg h3]

/-- `pre_slope * t1 = i1` whenever `t1 > 0`. -/
theorem reveal_preSlope_mul_t1 {N : ℕ} {a : ℚ} (h : 0 < reveal_t1 a) :
    reveal_preSlope N a * reveal_t1 a = reveal_i1 N a := by
  unfold reveal_preSlope
  rw [if_pos h, div_mul_cancel₀ _ (ne_of_gt h)]

/-- `0 ≤ C(t)` for `N ≥ 2` and a clamped fraction. -/
theorem reveal_C_nonneg {N : ℕ} (hN : 2 ≤ N) {a : ℚ} (h0 : 0 ≤ a) (h1 : a ≤ 1) (t : ℚ) :
    0 ≤ reveal_C N a t := by
  have hi1 := reveal_i1_nonneg N a
  have hi12 := reveal_i1_add_one_le_i2 hN h0 h1
  have hps := reveal_preSlope_nonneg N a
  have hss := reveal_slowSlope_nonneg hN h0 h1
  have hpos := reveal_postSlope_nonneg N a
  have hT1 := reveal_t1_nonneg a
  unfold reveal_C reveal_pre reveal_mid reveal_post
  split_ifs with g1 g2 g3 g4
  · exact le_refl 0
  · exact mul_nonneg hps (by linarith)
  · nlinarith [mul_nonneg hss (by linarith [not_lt.1 g2] : (0:ℚ) ≤ t - reveal_t1 a)]
  · nlinarith [mul_nonneg hpos (by linarith [not_le.1 g3] : (0:ℚ) ≤ t - reveal_t2 a),
      reveal_t1_lt_t2 h0 h1]
  · positivity

/-- `C(t) ≤ N` for `N ≥ 2` and a clamped fraction. -/
theorem reveal_C_le_N {N : ℕ} (hN : 2 ≤ N) {a : ℚ} (h0 : 0 ≤ a) (h1 : a ≤ 1) (t : ℚ) :
    reveal_C N a t ≤ (N : ℚ) := by
  have hi1 := reveal_i1_nonneg N a
  have hi12 := reveal_i1_add_one_le_i2 hN h0 h1
  have hi2N := reveal_i2_le_N N a
  have hps := reveal_preSlope_nonneg N a
  have hss := reveal_slowSlope_nonneg hN h0 h1
  have hT1 := reveal_t1_nonneg a
  have hmid2 := reveal_mid_at_t2 hN h0 h1
  unfold reveal_C
  split_ifs with g1 g2 g3 g4
  · positivity
  · -- pre piece: `pre_slope * t ≤ pre_slope * t1 = i1 ≤ N`
    have ht1 : 0 < reveal_t1 a := lt_of_le_of_lt (not_le.1 g1).le g2
    have := mul_le_mul_of_nonneg_left g2.le hps
    rw [reveal_preSlope_mul_t1 ht1] at this
    unfold reveal_pre
    linarith
  · -- slow piece: `mid t ≤ mid t2 = i2 ≤ N`
    have := mul_le_mul_of_nonneg_left (by linarith : t - reveal_t1 a ≤ reveal_t2 a - reveal_t1 a) hss
    unfold reveal_mid at hmid2 ⊢
    linarith
  · -- post piece: `post t ≤ post D = N`
    have ht2D : reveal_t2 a < DURATION_S := lt_trans (not_le.1 g3) g4
    have hpD := reveal_post_at_D (N := N) ht2D
    have hpos := reveal_postSlope_nonneg N a
    have := mul_le_mul_of_nonneg_left (by linarith : t - reveal_t2 a ≤ DURATION_S - reveal_t2 a) hpos
    unfold reveal_post at hpD ⊢
    linarith
  · exact le_refl _



/-- `i1 ≤ C(t)` once `t` has entered the slow window (for `0 < t`). -/
theorem reveal_C_lb_i1 {N : ℕ} (hN : 2 ≤ N) {a : ℚ} (h0 : 0 ≤ a) (h1 : a ≤ 1)
    {t : ℚ} (hpos : 0 < t) (ht : reveal_t1 a ≤ t) : reveal_i1 N a ≤ reveal_C N a t := by
  have hi12 := reveal_i1_add_one_le_i2 hN h0 h1
  have hi2N := reveal_i2_le_N N a
  have hss := reveal_slowSlope_nonneg hN h0 h1
  have hpos' := reveal_postSlope_nonneg N a
  have hnl : ¬ t ≤ 0 := not_le.2 hpos
  have hnt1 : ¬ t < reveal_t1 a := not_lt.2 ht
  rcases le_or_lt t (reveal_t2 a) with h2 | h2
  · rw [reveal_C_eval_mid hnl hnt1 h2]
    unfold reveal_mid
    nlinarith [mul_nonneg hss (by linarith : (0:ℚ) ≤ t - reveal_t1 a)]
  · rcases lt_or_le t DURATION_S with h3 | h3
    · rw [reveal_C_eval_post hnl hnt1 (not_le.2 h2) h3]
      unfold reveal_post
      nlinarith [mul_nonneg hpos' (by linarith : (0:ℚ) ≤ t - reveal_t2 a)]
    · rw [reveal_C_eval_end hnl hnt1 (not_le.2 h2) (not_lt.2 h3)]
      linarith

/-- `i2 ≤ C(t)` once `t` has passed the slow window. -/
theorem reveal_C_lb_i2 {N : ℕ} (hN : 2 ≤ N) {a : ℚ} (h0 : 0 ≤ a) (h1 : a ≤ 1)
    {t : ℚ} (ht : reveal_t2 a < t) : reveal_i2 N a ≤ reveal_C N a t := by
  have ht12 := reveal_t1_lt_t2 h0 h1
  have hT1 := reveal_t1_nonneg a
  have hi2N := reveal_i2_le_N N a
  have hpos' := reveal_postSlope_nonneg N a
  have hnl : ¬ t ≤ 0 := not_le.2 (by linarith)
  have hnt1 : ¬ t < reveal_t1 a := not_lt.2 (by linarith)
  rcases lt_or_le t DURATION_S with h3 | h3
  · rw [reveal_C_eval_post hnl hnt1 (not_le.2 ht) h3]
    unfold reveal_post
    nlinarith [mul_nonneg hpos' (by linarith : (0:ℚ) ≤ t - reveal_t2 a)]
  · rw [reveal_C_eval_end hnl hnt1 (not_le.2 ht) (not_lt.2 h3)]
    linarith

/-- `C(t) ≤ i1` while `t` is before the slow window (`0 < t < t1`). -/
theorem reveal_C_ub_pre {N : ℕ} {a : ℚ} {t : ℚ} (hpos : 0 < t) (ht : t < reveal_t1 a) :
    reveal_C N a t ≤ reveal_i1 N a := by
  have hps := reveal_preSlope_nonneg N a
  have ht1 : 0 < reveal_t1 a := lt_trans hpos ht
  rw [reveal_C_eval_pre (not_le.2 hpos) ht]
  unfold reveal_pre
  have := mul_le_mul_of_nonneg_left ht.le hps
  rw [reveal_preSlope_mul_t1 ht1] at this
  exact this

/-- `C(t) ≤ i2` while `t` has not passed the slow window. -/
theorem reveal_C_ub_i2 {N : ℕ} (hN : 2 ≤ N) {a : ℚ} (h0 : 0 ≤ a) (h1 : a ≤ 1)
    {t : ℚ} (ht : t ≤ reveal_t2 a) : reveal_C N a t ≤ reveal_i2 N a := by
  have hi1 := reveal_i1_nonneg N a
  have hi12 := reveal_i1_add_one_le_i2 hN h0 h1
  have hss := reveal_slowSlope_nonneg hN h0 h1
  have hmid2 := reveal_mid_at_t2 hN h0 h1
  rcases le_or_lt t 0 with g1 | g1
  · rw [reveal_C_eval_zero g1]; linarith
  · rcases lt_or_le t (reveal_t1 a) with g2 | g2
    · have := reveal_C_ub_pre (N := N) g1 g2
      linarith
    · rw [reveal_C_eval_mid (not_le.2 g1) (not_lt.2 g2) ht]
      have := mul_le_mul_of_nonneg_left (by linarith : t - reveal_t1 a ≤ reveal_t2 a - reveal_t1 a) hss
      unfold reveal_mid at hmid2 ⊢
      linarith

/-- The unclamped reveal curve is non-decreasing in `t` (for `N ≥ 2` and
a clamped fraction). -/
theorem reveal_C_mono {N : ℕ} (hN : 2 ≤ N) {a : ℚ} (h0 : 0 ≤ a) (h1 : a ≤ 1)
    {t t' : ℚ} (htt : t ≤ t') : reveal_C N a t ≤ reveal_C N a t' := by
  have ht12 := reveal_t1_lt_t2 h0 h1
  have hT1 := reveal_t1_nonneg a
  have hT2 := reveal_t2_le_D a
  have hD : (0 : ℚ) < DURATION_S := by norm_num [DURATION_S]
  have hps := reveal_preSlope_nonneg N a
  have hss := reveal_slowSlope_nonneg hN h0 h1
  have hpos := reveal_postSlope_nonneg N a
  rcases le_or_lt t 0 with g1 | g1
  · rw [reveal_C_eval_zero g1]
    exact reveal_C_nonneg hN h0 h1 t'
  · have g1' : 0 < t' := lt_of_lt_of_le g1 htt
    rcases lt_or_le t (reveal_t1 a) with g2 | g2
    · -- `t` on the pre piece
      rcases lt_or_le t' (reveal_t1 a) with g2' | g2'
      · rw [reveal_C_eval_pre (not_le.2 g1) g2, reveal_C_eval_pre (not_le.2 g1') g2']
        exact mul_le_mul_of_nonneg_left htt hps
      · have hub : reveal_C N a t ≤ reveal_i1 N a := reveal_C_ub_pre g1 g2
        have hlb := reveal_C_lb_i1 hN h0 h1 g1' g2'
        linarith
    · rcases le_or_lt t (reveal_t2 a) with g3 | g3
      · -- `t` on the slow piece
        rcases le_or_lt t' (reveal_t2 a) with g3' | g3'
        · rw [reveal_C_eval_mid (not_le.2 g1) (not_lt.2 g2) g3,
            reveal_C_eval_mid (not_le.2 g1') (not_lt.2 (le_trans g2 htt)) g3']
          unfold reveal_mid
          have := mul_le_mul_of_nonneg_left (by linarith : t - reveal_t1 a ≤ t' - reveal_t1 a) hss
          linarith
        · have hub := reveal_C_ub_i2 hN h0 h1 g3
          have hlb := reveal_C_lb_i2 hN h0 h1 g3'
          linarith
      · -- `t` past the slow window
        rcases lt_or_le t DURATION_S with g4 | g4
        · rcases lt_or_le t' DURATION_S with g4' | g4'
          · rw [reveal_C_eval_post (not_le.2 g1) (not_lt.2 g2) (not_le.2 g3) g4,
              reveal_C_eval_post (not_le.2 g1') (not_lt.2 (le_trans g2 htt))
                (not_le.2 (lt_of_lt_of_le g3 htt)) g4']
            unfold reveal_post
            have := mul_le_mul_of_nonneg_left (by linarith : t - reveal_t2 a ≤ t' - reveal_t2 a) hpos
            linarith
          · rw [reveal_C_eval_end (not_le.2 g1') (not_lt.2 (le_trans g2 htt))
              (not_le.2 (lt_of_lt_of_le g3 htt)) (not_lt.2 g4')]
            exact reveal_C_le_N hN h0 h1 t
        · rw [reveal_C_eval_end (not_le.2 g1) (not_lt.2 g2) (not_le.2 g3) (not_lt.2 g4),
            reveal_C_eval_end (not_le.2 g1') (not_lt.2 (le_trans g2 htt))
              (not_le.2 (lt_of_lt_of_le g3 htt)) (not_lt.2 (le_trans g4 htt))]



/-- For `N ≥ 2` the degenerate uniform-fallback branch is dead code and
the function is the clamped piecewise curve. -/
theorem chars_revealed_eq_clamp {N : ℕ} (hN : 2 ≤ N) (t anomalyFrac : ℚ) :
    chars_revealed_at_time t N anomalyFrac
      = max 0 (min (N : ℚ) (reveal_C N (clamp01 anomalyFrac) t)) := by
  obtain ⟨ha0, ha1⟩ := clamp01_mem anomalyFrac
  unfold chars_revealed_at_time
  rw [if_neg (by omega), if_neg (by omega),
    if_neg (not_le.2 (reveal_t1_lt_t2 ha0 ha1))]

/-- `chars_revealed_at_time` is non-decreasing in `t` for every `N` and
every anomaly fraction. -/
theorem chars_revealed_mono (N : ℕ) (anomalyFrac : ℚ) {t t' : ℚ} (htt : t ≤ t') :
    chars_revealed_at_time t N anomalyFrac ≤ chars_revealed_at_time t' N anomalyFrac := by
  obtain ⟨ha0, ha1⟩ := clamp01_mem anomalyFrac
  rcases Nat.lt_or_ge N 2 with hN | hN
  · interval_cases N
    · norm_num [chars_revealed_at_time]
    · unfold chars_revealed_at_time
      norm_num
      split_ifs <;> first | linarith | norm_num
  · rw [chars_revealed_eq_clamp hN, chars_revealed_eq_clamp hN]
    exact max_le_max (le_refl 0)
      (min_le_min (le_refl _) (reveal_C_mono hN ha0 ha1 htt))

/-- `chars_revealed_at_time` lands in `[0, N]`. -/
theorem chars_revealed_bounds (t : ℚ) (N : ℕ) (anomalyFrac : ℚ) :
    0 ≤ chars_revealed_at_time t N anomalyFrac ∧
      chars_revealed_at_time t N anomalyFrac ≤ (N : ℚ) := by
  rcases Nat.lt_or_ge N 2 with hN | hN
  · interval_cases N
    · norm_num [chars_revealed_at_time]
    · unfold chars_revealed_at_time
      norm_num
      split_ifs <;> norm_num
  · rw [chars_revealed_eq_clamp hN]
    refine ⟨le_max_left 0 _, max_le (by positivity) (min_le_left _ _)⟩

/-- At `t = 0` the reveal count is `0` when `N ≥ 2`. -/
theorem chars_revealed_at_zero {N : ℕ} (hN : 2 ≤ N) (anomalyFrac : ℚ) :
    chars_revealed_at_time 0 N anomalyFrac = 0 := by
  rw [chars_revealed_eq_clamp hN, reveal_C_eval_zero (le_refl 0)]
  simp [Nat.one_le_cast.2 (by omega : 1 ≤ N)]

/-- For `N = 1` the reveal count is `1` at every `t ≥ 0`. -/
theorem chars_revealed_single {t : ℚ} (ht : 0 ≤ t) (anomalyFrac : ℚ) :
    chars_revealed_at_time t 1 anomalyFrac = 1 := by
  unfold chars_revealed_at_time
  norm_num [ht]

/-- Strictly after the total duration the reveal count is `N` (any `N > 0`). -/
theorem chars_revealed_after_D {N : ℕ} (hN : 0 < N) {t : ℚ} (ht : DURATION_S < t)
    (anomalyFrac : ℚ) : chars_revealed_at_time t N anomalyFrac = (N : ℚ) := by
  obtain ⟨ha0, ha1⟩ := clamp01_mem anomalyFrac
  have hD : (0 : ℚ) < DURATION_S := by norm_num [DURATION_S]
  rcases Nat.lt_or_ge N 2 with hN2 | hN2
  · interval_cases N
    rw [chars_revealed_single (by linarith) anomalyFrac]; norm_num
  · have hT1 := reveal_t1_nonneg (clamp01 anomalyFrac)
    have hT2 := reveal_t2_le_D (clamp01 anomalyFrac)
    have ht12 := reveal_t1_lt_t2 ha0 ha1
    rw [chars_revealed_eq_clamp hN2,
      reveal_C_eval_end (not_le.2 (by linarith)) (not_lt.2 (by linarith))
        (not_le.2 (by linarith)) (not_lt.2 ht.le)]
    simp [Nat.cast_nonneg]

/-- At `t = D` (and beyond) the reveal count is `N`, provided the slow
window is not clipped at the end (`t2 < D`). -/
theorem chars_revealed_at_D {N : ℕ} (hN : 2 ≤ N) {anomalyFrac : ℚ}
    (h2 : reveal_t2 (clamp01 anomalyFrac) < DURATION_S) {t : ℚ} (ht : DURATION_S ≤ t) :
    chars_revealed_at_time t N anomalyFrac = (N : ℚ) := by
  obtain ⟨ha0, ha1⟩ := clamp01_mem anomalyFrac
  have hD : (0 : ℚ) < DURATION_S := by norm_num [DURATION_S]
  have hT1 := reveal_t1_nonneg (clamp01 anomalyFrac)
  have ht12 := reveal_t1_lt_t2 ha0 ha1
  rw [chars_revealed_eq_clamp hN,
    reveal_C_eval_end (not_le.2 (by linarith)) (not_lt.2 (by linarith))
      (not_le.2 (by linarith)) (not_lt.2 ht)]
  simp [Nat.cast_nonneg]



/-! ## Lemmas: the bulge model -/

theorem runningMax_length (m : ℝ) (l : List ℝ) : (runningMax m l).length = l.length := by
  induction l generalizing m with
  | nil => rfl
  | cons d rest ih => simp [runningMax, ih]

/-- Every output of the running maximum dominates the initial value. -/
theorem runningMax_init_le (m : ℝ) (l : List ℝ) : ∀ x ∈ runningMax m l, m ≤ x := by
  induction l generalizing m with
  | nil => simp [runningMax]
  | cons d rest ih =>
    intro x hx
    have hm' : m ≤ if d > m then d else m := by
      split_ifs with h
      · exact le_of_lt h
      · exact le_refl m
    rcases List.mem_cons.mp hx with rfl | hx'
    · exact hm'
    · exact le_trans hm' (ih _ x hx')

/-- The running maximum respects a common upper bound. -/
theorem runningMax_le_bound {B m : ℝ} {l : List ℝ} (hm : m ≤ B) (hl : ∀ x ∈ l, x ≤ B) :
    ∀ x ∈ runningMax m l, x ≤ B := by
  induction l generalizing m with
  | nil => simp [runningMax]
  | cons d rest ih =>
    intro x hx
    have hm' : (if d > m then d else m) ≤ B := by
      split_ifs
      · exact hl d (List.mem_cons_self d rest)
      · exact hm
    rcases List.mem_cons.mp hx with rfl | hx'
    · exact hm'
    · exact ih hm' (fun y hy => hl y (List.mem_cons_of_mem d hy)) x hx'

/-- The running maximum is non-decreasing along the list. -/
theorem runningMax_chain (m : ℝ) (l : List ℝ) :
    List.Chain' (· ≤ ·) (runningMax m l) := by
  induction l generalizing m with
  | nil => simp [runningMax]
  | cons d rest ih =>
    rw [runningMax, List.chain'_cons']
    exact ⟨fun h hh => runningMax_init_le _ rest h (List.mem_of_mem_head? hh), ih _⟩

/-- Each output of the running maximum dominates the raw value at the
same index. -/
theorem runningMax_getD_ge (m : ℝ) (l : List ℝ) :
    ∀ i, i < l.length → l.getD i 0 ≤ (runningMax m l).getD i 0 := by
  induction l generalizing m with
  | nil => simp
  | cons d rest ih =>
    intro i hi
    cases i with
    | zero =>
      simp only [runningMax, List.getD_cons_zero]
      split_ifs with h
      · exact le_refl d
      · exact le_of_not_lt h
    | succ j =>
      simp only [runningMax, List.getD_cons_succ]
      exact ih _ j (by simpa using hi)

/-- If every raw value up to index `i` is zero, the running maximum from
`0` is still zero at index `i`. -/
theorem runningMax_prefix_zero (l : List ℝ) :
    ∀ i, (∀ j, j ≤ i → l.getD j 0 = 0) → (runningMax 0 l).getD i 0 = 0 := by
  induction l with
  | nil => intro i _; simp [runningMax]
  | cons d rest ih =>
    intro i h
    have hd : d = 0 := by simpa using h 0 (Nat.zero_le i)
    subst hd
    have hif : (if (0 : ℝ) > 0 then (0 : ℝ) else 0) = 0 := by simp
    cases i with
    | zero => simp [runningMax, hif]
    | succ j =>
      simp only [runningMax, hif, List.getD_cons_succ]
      exact ih j (fun k hk => by simpa using h (k + 1) (Nat.succ_le_succ hk))

theorem bulge_raw_nonneg (numChars : ℕ) (a : ℚ) (i : ℕ) : 0 ≤ bulge_raw numChars a i := by
  unfold bulge_raw
  split_ifs with h
  · exact le_refl 0
  · have harg : (-(1/2) * bulge_d numChars a i * bulge_d numChars a i : ℝ) ≤ 0 := by
      nlinarith [mul_self_nonneg (bulge_d numChars a i)]
    have hexp := Real.exp_le_one_iff.2 harg
    have hA : (0 : ℝ) ≤ BULGE_AMP := by norm_num [BULGE_AMP]
    nlinarith

theorem bulge_raw_le_amp (numChars : ℕ) (a : ℚ) (i : ℕ) :
    bulge_raw numChars a i ≤ BULGE_AMP := by
  unfold bulge_raw
  split_ifs with h
  · norm_num [BULGE_AMP]
  · have hexp := Real.exp_pos (-(1/2) * bulge_d numChars a i * bulge_d numChars a i)
    have hA : (0 : ℝ) ≤ BULGE_AMP := by norm_num [BULGE_AMP]
    nlinarith

/-- Past the anomaly point the raw delta is strictly positive. -/
theorem bulge_raw_pos {numChars : ℕ} {a : ℚ} {i : ℕ} (h : a < bulge_tchar numChars i) :
    0 < bulge_raw numChars a i := by
  unfold bulge_raw
  rw [if_neg (not_le.2 h)]
  have hd : (0 : ℝ) < bulge_d numChars a i := by
    unfold bulge_d
    apply div_pos
    · exact_mod_cast sub_pos.2 h
    · have : (0 : ℝ) < BULGE_SIGMA := by norm_num [BULGE_SIGMA]
      exact lt_max_of_lt_right this
  have harg : (-(1/2) * bulge_d numChars a i * bulge_d numChars a i : ℝ) < 0 := by nlinarith
  have hexp := Real.exp_lt_one_iff.2 harg
  have hA : (0 : ℝ) < BULGE_AMP := by norm_num [BULGE_AMP]
  nlinarith

theorem compute_bulge_deltas_length (numChars : ℕ) (anomalyFrac : ℚ) :
    (compute_bulge_deltas numChars anomalyFrac).length = numChars := by
  unfold compute_bulge_deltas
  split_ifs with h1 h2
  · simp [Nat.le_zero.1 h1]
  · simp [h2]
  · simp [runningMax_length]

/-- Either `getD` hits the default, or it returns a list member. -/
theorem getD_zero_or_mem (l : List ℝ) (i : ℕ) :
    l.getD i 0 = 0 ∨ l.getD i 0 ∈ l := by
  rcases lt_or_le i l.length with h | h
  · right
    rw [List.getD_eq_getElem _ _ h]
    exact List.getElem_mem h
  · left
    rw [List.getD_eq_default _ _ h]

/-- Every member of the bulge-delta list is non-negative. -/
theorem compute_bulge_deltas_mem_nonneg (numChars : ℕ) (anomalyFrac : ℚ) :
    ∀ x ∈ compute_bulge_deltas numChars anomalyFrac, 0 ≤ x := by
  unfold compute_bulge_deltas
  split_ifs with h1 h2
  · simp
  · intro x hx
    rcases List.mem_singleton.mp hx with rfl
    exact le_refl 0
  · intro x hx
    exact runningMax_init_le 0 _ x hx

/-- Every bulge delta is non-negative. -/
theorem compute_bulge_deltas_getD_nonneg (numChars : ℕ) (anomalyFrac : ℚ) (i : ℕ) :
    0 ≤ (compute_bulge_deltas numChars anomalyFrac).getD i 0 := by
  rcases getD_zero_or_mem (compute_bulge_deltas numChars anomalyFrac) i with h | h
  · rw [h]
  · exact compute_bulge_deltas_mem_nonneg numChars anomalyFrac _ h

/-- Every member of the bulge-delta list is bounded by the amplitude. -/
theorem compute_bulge_deltas_mem_le_amp (numChars : ℕ) (anomalyFrac : ℚ) :
    ∀ x ∈ compute_bulge_deltas numChars anomalyFrac, x ≤ BULGE_AMP := by
  have hA : (0 : ℝ) ≤ BULGE_AMP := by norm_num [BULGE_AMP]
  unfold compute_bulge_deltas
  split_ifs with h1 h2
  · simp
  · intro x hx
    rcases List.mem_singleton.mp hx with rfl
    exact hA
  · intro x hx
    refine runningMax_le_bound hA ?_ x hx
    intro y hy
    rcases List.mem_map.mp hy with ⟨j, _, rfl⟩
    exact bulge_raw_le_amp _ _ _

/-- Every bulge delta is bounded by the amplitude. -/
theorem compute_bulge_deltas_getD_le_amp (numChars : ℕ) (anomalyFrac : ℚ) (i : ℕ) :
    (compute_bulge_deltas numChars anomalyFrac).getD i 0 ≤ BULGE_AMP := by
  rcases getD_zero_or_mem (compute_bulge_deltas numChars anomalyFrac) i with h | h
  · rw [h]
    norm_num [BULGE_AMP]
  · exact compute_bulge_deltas_mem_le_amp numChars anomalyFrac _ h

/-- The bulge-delta sequence is non-decreasing in the index. -/
theorem compute_bulge_deltas_mono (numChars : ℕ) (anomalyFrac : ℚ) {i j : ℕ}
    (hij : i ≤ j) (hj : j < (compute_bulge_deltas numChars anomalyFrac).length) :
    (compute_bulge_deltas numChars anomalyFrac).getD i 0
      ≤ (compute_bulge_deltas numChars anomalyFrac).getD j 0 := by
  rcases eq_or_lt_of_le hij with rfl | hlt
  · exact le_refl _
  · have hi : i < (compute_bulge_deltas numChars anomalyFrac).length := lt_trans hlt hj
    rw [List.getD_eq_getElem _ _ hi, List.getD_eq_getElem _ _ hj]
    have hchain : List.Chain' (· ≤ ·) (compute_bulge_deltas numChars anomalyFrac) := by
      unfold compute_bulge_deltas
      split_ifs
      · simp
      · simp
      · exact runningMax_chain 0 _
    exact List.pairwise_iff_getElem.mp (List.chain'_iff_pairwise.mp hchain) i j hi hj hlt


theorem map_range_getD (f : ℕ → ℝ) (n i : ℕ) (h : i < n) (d : ℝ) :
    ((List.range n).map f).getD i d = f i := by
  have hl : i < ((List.range n).map f).length := by simpa
  rw [List.getD_eq_getElem _ _ hl]
  simp

/-- For `N ≥ 2` the bulge list is the monotonized raw list. -/
theorem compute_bulge_deltas_eq {numChars : ℕ} (hN : 2 ≤ numChars) (anomalyFrac : ℚ) :
    compute_bulge_deltas numChars anomalyFrac
      = runningMax 0 ((List.range numChars).map (bulge_raw numChars (clamp01 anomalyFrac))) := by
  unfold compute_bulge_deltas
  rw [if_neg (by omega), if_neg (by omega)]

/-- `t_char` is non-decreasing in the index (for `N ≥ 2`). -/
theorem bulge_tchar_mono {numChars : ℕ} (hN : 2 ≤ numChars) {j i : ℕ} (h : j ≤ i) :
    bulge_tchar numChars j ≤ bulge_tchar numChars i := by
  unfold bulge_tchar
  have hden : (0 : ℚ) < (numChars : ℚ) - 1 := by
    have : (2 : ℚ) ≤ (numChars : ℚ) := by exact_mod_cast hN
    linarith
  have hnum : (j : ℚ) ≤ (i : ℚ) := by exact_mod_cast h
  exact div_le_div_of_nonneg_right hnum hden.le


/-- Every delta at an index whose normalized position is at or before the
anomaly fraction is exactly zero. -/
theorem compute_bulge_deltas_prefix_zero (numChars : ℕ) {anomalyFrac : ℚ}
    (h0 : 0 ≤ anomalyFrac) (h1 : anomalyFrac ≤ 1) {i : ℕ}
    (hi : bulge_tchar numChars i ≤ anomalyFrac) :
    (compute_bulge_deltas numChars anomalyFrac).getD i 0 = 0 := by
  rcases Nat.lt_or_ge numChars 2 with hN | hN
  · interval_cases numChars
    · simp [compute_bulge_deltas]
    · unfold compute_bulge_deltas
      norm_num
  · rcases lt_or_le i numChars with hiN | hiN
    · rw [compute_bulge_deltas_eq hN]
      apply runningMax_prefix_zero
      intro j hj
      rw [map_range_getD _ _ _ (lt_of_le_of_lt hj hiN)]
      unfold bulge_raw
      rw [if_pos]
      rw [clamp01_eq h0 h1]
      exact le_trans (bulge_tchar_mono hN hj) hi
    · rw [List.getD_eq_default]
      rw [compute_bulge_deltas_length]
      exact hiN

/-- With the anomaly at `0`, every delta from index `1` on is strictly
positive (`N ≥ 2`). -/
theorem compute_bulge_deltas_pos_of_zero_frac {numChars : ℕ} (hN : 2 ≤ numChars)
    {i : ℕ} (h1 : 1 ≤ i) (hiN : i < numChars) :
    0 < (compute_bulge_deltas numChars 0).getD i 0 := by
  have hc : clamp01 0 = 0 := by norm_num [clamp01]
  have htc : (0 : ℚ) < bulge_tchar numChars i := by
    unfold bulge_tchar
    apply div_pos
    · exact_mod_cast h1
    · have : (2 : ℚ) ≤ (numChars : ℚ) := by exact_mod_cast hN
      linarith
  have hraw : 0 < bulge_raw numChars (clamp01 0) i := by
    rw [hc]
    exact bulge_raw_pos htc
  have hlen : i < ((List.range numChars).map (bulge_raw numChars (clamp01 0))).length := by
    simpa
  have hge := runningMax_getD_ge 0 ((List.range numChars).map (bulge_raw numChars (clamp01 0))) i hlen
  rw [map_range_getD _ _ _ hiN] at hge
  rw [compute_bulge_deltas_eq hN]
  exact lt_of_lt_of_le hraw hge


/-! ## Lemmas: the spiral builder -/

theorem spiralB_pos : 0 < spiralB := by
  have := Real.pi_pos
  unfold spiralB COIL_SPACING
  positivity

theorem stepTheta_pos : (0 : ℝ) < stepTheta := by norm_num [stepTheta]

theorem spiralR_nonneg {θ : ℝ} (h : 0 ≤ θ) : 0 ≤ spiralR θ := by
  unfold spiralR INITIAL_RADIUS
  have := spiralB_pos
  nlinarith

theorem spiralR_sub (θ : ℝ) : spiralR (θ + stepTheta) - spiralR θ = spiralB * stepTheta := by
  unfold spiralR
  ring

/-- The squared chord between two points on circles of radii `r₁, r₂`
about the origin is at least the squared radius difference. -/
theorem chord_sq_ge {θ₁ θ₂ r₁ r₂ : ℝ} (h₁ : 0 ≤ r₁) (h₂ : 0 ≤ r₂) :
    (r₂ - r₁) ^ 2 ≤ (r₂ * Real.cos θ₂ - r₁ * Real.cos θ₁) ^ 2
      + (r₂ * Real.sin θ₂ - r₁ * Real.sin θ₁) ^ 2 := by
  have hcos := (Real.cos_sub θ₂ θ₁).symm
  have hp1 := Real.sin_sq_add_cos_sq θ₁
  have hp2 := Real.sin_sq_add_cos_sq θ₂
  have hc1 := Real.cos_le_one (θ₂ - θ₁)
  have key : (r₂ * Real.cos θ₂ - r₁ * Real.cos θ₁) ^ 2
      + (r₂ * Real.sin θ₂ - r₁ * Real.sin θ₁) ^ 2
      = r₂ ^ 2 + r₁ ^ 2 - 2 * r₁ * r₂ * Real.cos (θ₂ - θ₁) := by
    linear_combination r₂ ^ 2 * hp2 + r₁ ^ 2 * hp1 - 2 * r₁ * r₂ * hcos
  rw [key]
  nlinarith [mul_nonneg (mul_nonneg h₁ h₂) (sub_nonneg.2 hc1)]

/-- Each outer step's chord length is at least `b * step_theta`. -/
theorem ds_ge {θ : ℝ} (hθ : 0 ≤ θ) :
    spiralB * stepTheta ≤
      Real.sqrt ((spiralR (θ + stepTheta) * Real.cos (θ + stepTheta) - spiralR θ * Real.cos θ) ^ 2
        + (spiralR (θ + stepTheta) * Real.sin (θ + stepTheta) - spiralR θ * Real.sin θ) ^ 2) := by
  have h₁ : 0 ≤ spiralR θ := spiralR_nonneg hθ
  have hst := stepTheta_pos
  have h₂ : 0 ≤ spiralR (θ + stepTheta) := spiralR_nonneg (by linarith)
  have hkey := @chord_sq_ge θ (θ + stepTheta) _ _ h₁ h₂
  have hδ : 0 ≤ spiralB * stepTheta := mul_nonneg spiralB_pos.le hst.le
  calc spiralB * stepTheta
      = Real.sqrt ((spiralR (θ + stepTheta) - spiralR θ) ^ 2) := by
        rw [spiralR_sub θ, Real.sqrt_sq hδ]
    _ ≤ _ := Real.sqrt_le_sqrt hkey


/-- Specification of the inner emission loop: with enough fuel it
preserves the emission invariant, leaves the sampling fields untouched,
and stops only with all points emitted or the target ahead of the
accumulated length.  Needs `ds ≠ 0` so each emitted arc position equals
the current target. -/
theorem innerEmit_spec (numChars : ℕ) (dx dy ds θ : ℝ) (hds : ds ≠ 0) :
    ∀ (fuel : ℕ) (s : SpiralState), InnerInv numChars s →
      numChars < fuel + s.points.length →
      InnerInv numChars (innerEmit numChars dx dy ds θ fuel s) ∧
      LoopPost numChars (innerEmit numChars dx dy ds θ fuel s) ∧
      (innerEmit numChars dx dy ds θ fuel s).accumulated = s.accumulated ∧
      (innerEmit numChars dx dy ds θ fuel s).theta = s.theta ∧
      (innerEmit numChars dx dy ds θ fuel s).lastX = s.lastX ∧
      (innerEmit numChars dx dy ds θ fuel s).lastY = s.lastY := by
  intro fuel
  induction fuel with
  | zero =>
    intro s hinv hfuel
    exact absurd hfuel (by have := hinv.1; omega)
  | succ fuel ih =>
    intro s hinv hfuel
    obtain ⟨hlen, htgt, harc⟩ := hinv
    rw [innerEmit]
    simp only [if_pos hds]
    split_ifs with hcond
    · have hval : s.accumulated - ds
          + (1 - (s.accumulated - s.targetLength) / ds) * ds
          = s.targetLength := by
        field_simp
      have hinv' : InnerInv numChars
          { s with
            points := s.points ++ [(s.lastX
                + (1 - (s.accumulated - s.targetLength) / ds) * dx,
              s.lastY
                + (1 - (s.accumulated - s.targetLength) / ds) * dy, θ)]
            arcs := s.arcs ++ [s.accumulated - ds
                + (1 - (s.accumulated - s.targetLength) / ds) * ds]
            targetLength := s.targetLength + CHAR_SPACING } := by
        refine ⟨?_, ?_, ?_⟩
        · simp only [List.length_append, List.length_cons, List.length_nil]
          omega
        · simp only [List.length_append, List.length_cons, List.length_nil]
          rw [htgt]
          push_cast
          ring
        · simp only [List.length_append, List.length_cons, List.length_nil]
          rw [hval, harc, htgt, List.range_succ, List.map_append]
          simp
      have hflen : numChars < fuel + (s.points.length + 1) := by omega
      have h1 := ih _ hinv' (by simpa using hflen)
      refine ⟨h1.1, h1.2.1, ?_, ?_, ?_, ?_⟩
      · exact h1.2.2.1
      · exact h1.2.2.2.1
      · exact h1.2.2.2.2.1
      · exact h1.2.2.2.2.2
    · refine ⟨⟨hlen, htgt, harc⟩, ?_, rfl, rfl, rfl, rfl⟩
      rcases not_and_or.mp hcond with h | h
      · exact Or.inr (not_le.1 h)
      · exact Or.inl (le_antisymm hlen (not_lt.1 h))


/-- One outer iteration preserves the loop invariant, establishes the
post-iteration property, and gains at least `b * step_theta` of
accumulated arc length. -/
theorem outerStep_spec (numChars : ℕ) (s : SpiralState) (h : LoopInv numChars s) :
    LoopInv numChars (outerStep numChars s) ∧
    LoopPost numChars (outerStep numChars s) ∧
    s.accumulated + spiralB * stepTheta ≤ (outerStep numChars s).accumulated := by
  obtain ⟨hinner, hθ, hx, hy⟩ := h
  have hge : spiralB * stepTheta ≤
      Real.sqrt ((spiralR (s.theta + stepTheta) * Real.cos (s.theta + stepTheta) - s.lastX) ^ 2
        + (spiralR (s.theta + stepTheta) * Real.sin (s.theta + stepTheta) - s.lastY) ^ 2) := by
    rw [hx, hy]
    exact ds_ge hθ
  have hpos : (0 : ℝ) <
      Real.sqrt ((spiralR (s.theta + stepTheta) * Real.cos (s.theta + stepTheta) - s.lastX) ^ 2
        + (spiralR (s.theta + stepTheta) * Real.sin (s.theta + stepTheta) - s.lastY) ^ 2) :=
    lt_of_lt_of_le (mul_pos spiralB_pos stepTheta_pos) hge
  have hinner' : InnerInv numChars
      { s with accumulated := s.accumulated +
          Real.sqrt ((spiralR (s.theta + stepTheta) * Real.cos (s.theta + stepTheta) - s.lastX) ^ 2
            + (spiralR (s.theta + stepTheta) * Real.sin (s.theta + stepTheta) - s.lastY) ^ 2) } :=
    hinner
  have hfl : numChars < (numChars + 1) +
      ({ s with accumulated := s.accumulated +
          Real.sqrt ((spiralR (s.theta + stepTheta) * Real.cos (s.theta + stepTheta) - s.lastX) ^ 2
            + (spiralR (s.theta + stepTheta) * Real.sin (s.theta + stepTheta) - s.lastY) ^ 2) }).points.length := by
    simp only []
    omega
  have hspec := innerEmit_spec numChars
    (spiralR (s.theta + stepTheta) * Real.cos (s.theta + stepTheta) - s.lastX)
    (spiralR (s.theta + stepTheta) * Real.sin (s.theta + stepTheta) - s.lastY)
    (Real.sqrt ((spiralR (s.theta + stepTheta) * Real.cos (s.theta + stepTheta) - s.lastX) ^ 2
      + (spiralR (s.theta + stepTheta) * Real.sin (s.theta + stepTheta) - s.lastY) ^ 2))
    (s.theta + stepTheta) hpos.ne' (numChars + 1) _ hinner' hfl
  obtain ⟨hspec1, hspec2, hspec3, hspec4, hspec5, hspec6⟩ := hspec
  have hacc : (outerStep numChars s).accumulated = s.accumulated +
      Real.sqrt ((spiralR (s.theta + stepTheta) * Real.cos (s.theta + stepTheta) - s.lastX) ^ 2
        + (spiralR (s.theta + stepTheta) * Real.sin (s.theta + stepTheta) - s.lastY) ^ 2) :=
    hspec3
  refine ⟨⟨?_, ?_, ?_, ?_⟩, ?_, ?_⟩
  · exact hspec1
  · have h0 : (0 : ℝ) ≤ s.theta + stepTheta := by
      have := stepTheta_pos
      linarith
    exact h0
  · exact rfl
  · exact rfl
  · exact hspec2
  · rw [hacc]
    linarith


/-- Once all points are emitted the outer loop is the identity. -/
theorem outerLoop_stop {numChars : ℕ} {s : SpiralState} (h : ¬ s.points.length < numChars)
    (fuel : ℕ) : outerLoop numChars fuel s = s := by
  cases fuel with
  | zero => rfl
  | succ fuel => rw [outerLoop, if_neg h]

/-- The outer loop preserves the invariant and the post-iteration
property, and either finishes or gains `fuel * b * step_theta` of
accumulated length. -/
theorem outerLoop_spec (numChars : ℕ) :
    ∀ (fuel : ℕ) (s : SpiralState), LoopInv numChars s → LoopPost numChars s →
      LoopInv numChars (outerLoop numChars fuel s) ∧
      LoopPost numChars (outerLoop numChars fuel s) ∧
      ((outerLoop numChars fuel s).points.length = numChars ∨
        s.accumulated + fuel * (spiralB * stepTheta) ≤ (outerLoop numChars fuel s).accumulated) := by
  intro fuel
  induction fuel with
  | zero =>
    intro s hinv hpost
    refine ⟨hinv, hpost, Or.inr ?_⟩
    rw [outerLoop]
    simp
  | succ fuel ih =>
    intro s hinv hpost
    rw [outerLoop]
    split_ifs with hlen
    · obtain ⟨hinv', hpost', hacc'⟩ := outerStep_spec numChars s hinv
      obtain ⟨h1, h2, h3⟩ := ih (outerStep numChars s) hinv' hpost'
      refine ⟨h1, h2, ?_⟩
      rcases h3 with h3 | h3
      · exact Or.inl h3
      · refine Or.inr ?_
        have : (0 : ℝ) ≤ spiralB * stepTheta := mul_pos spiralB_pos stepTheta_pos |>.le
        push_cast
        push_cast at h3
        nlinarith
    · exact ⟨hinv, hpost, Or.inl (le_antisymm hinv.1.1 (not_lt.1 hlen))⟩

/-- The initial state satisfies the loop invariant. -/
theorem initState_inv (numChars : ℕ) : LoopInv numChars initState := by
  refine ⟨⟨?_, ?_, ?_⟩, ?_, ?_, ?_⟩ <;> simp [initState, InnerInv]

/-- `105 * b * step_theta` exceeds one character spacing (`π < 3.15`). -/
theorem fuel_rate : (1 : ℝ) < 105 * (spiralB * stepTheta) := by
  have hpi := Real.pi_lt_d2
  have hpi0 := Real.pi_pos
  rw [show (105 : ℝ) * (spiralB * stepTheta) = 63 / (20 * Real.pi) by
    unfold spiralB stepTheta COIL_SPACING
    ring]
  rw [one_lt_div (by positivity)]
  nlinarith

/-- The spiral loop terminates with exactly `numChars` points within the
given fuel, and the final state keeps the invariant. -/
theorem spiralFinalState_spec (numChars : ℕ) :
    (spiralFinalState numChars).points.length = numChars ∧
      LoopInv numChars (spiralFinalState numChars) := by
  rcases Nat.eq_zero_or_pos numChars with rfl | hpos
  · constructor
    · rw [spiralFinalState, outerLoop_stop (by simp [initState])]
      rfl
    · rw [spiralFinalState, outerLoop_stop (by simp [initState])]
      exact initState_inv 0
  · have hδ : (0 : ℝ) < spiralB * stepTheta := mul_pos spiralB_pos stepTheta_pos
    have hstep := outerStep_spec numChars initState (initState_inv numChars)
    obtain ⟨hinv1, hpost1, hacc1⟩ := hstep
    have hloop := outerLoop_spec numChars (105 * numChars) (outerStep numChars initState)
      hinv1 hpost1
    obtain ⟨hinvF, hpostF, haccF⟩ := hloop
    have hunfold : spiralFinalState numChars
        = outerLoop numChars (105 * numChars) (outerStep numChars initState) := by
      rw [spiralFinalState, outerLoop, if_pos (by simp [initState]; omega)]
    rw [hunfold]
    set F := outerLoop numChars (105 * numChars) (outerStep numChars initState) with hF
    refine ⟨?_, hinvF⟩
    by_contra hne
    have hlt : F.points.length < numChars := lt_of_le_of_ne hinvF.1.1 hne
    have hub : F.accumulated < F.targetLength := by
      rcases hpostF with h | h
      · exact absurd h hne
      · exact h
    have htgt : F.targetLength = F.points.length * CHAR_SPACING := hinvF.1.2.1
    have hinit_acc : initState.accumulated = 0 := rfl
    rcases haccF with h | h
    · exact hne h
    · -- accumulated exceeds `numChars`, yet the target is below it
      have hacc_lb : (105 * numChars : ℝ) * (spiralB * stepTheta) < F.accumulated := by
        rw [hinit_acc] at hacc1
        push_cast at h ⊢
        nlinarith
      have hNlt : (numChars : ℝ) < F.accumulated := by
        have h105 := fuel_rate
        have hN0 : (0 : ℝ) < (numChars : ℝ) := by exact_mod_cast hpos
        nlinarith
      have hlen_ub : (F.points.length : ℝ) ≤ (numChars : ℝ) - 1 := by
        have h1 : (F.points.length : ℝ) + 1 ≤ (numChars : ℝ) := by exact_mod_cast hlt
        linarith
      rw [htgt] at hub
      unfold CHAR_SPACING at hub
      nlinarith


/-- The spiral builder returns exactly `numChars` points. -/
theorem generate_spiral_positions_length (numChars : ℕ) :
    (generate_spiral_positions numChars).length = numChars :=
  (spiralFinalState_spec numChars).1

/-- The ghost arc positions are exactly `0, 1, 2, ...` times the
character spacing. -/
theorem spiralArcs_eq (numChars : ℕ) :
    spiralArcs numChars
      = (List.range numChars).map fun k : ℕ => (k : ℝ) * CHAR_SPACING := by
  have h := (spiralFinalState_spec numChars).2.1.2.2
  rw [spiralArcs, h, (spiralFinalState_spec numChars).1]

theorem spiralArcs_getD {numChars k : ℕ} (hk : k < numChars) :
    (spiralArcs numChars).getD k 0 = (k : ℝ) * CHAR_SPACING := by
  rw [spiralArcs_eq]
  exact map_range_getD _ _ _ hk 0

/-- Zero characters produce the empty sequence. -/
theorem generate_spiral_positions_zero : generate_spiral_positions 0 = [] :=
  List.length_eq_zero.mp (generate_spiral_positions_length 0)

theorem initState_lastX : initState.lastX = 0 := by
  simp [initState, spiralR, INITIAL_RADIUS]

theorem initState_lastY : initState.lastY = 0 := by
  simp [initState, spiralR, INITIAL_RADIUS]

theorem spiralR_stepTheta_pos : 0 < spiralR stepTheta := by
  unfold spiralR INITIAL_RADIUS
  have h1 := spiralB_pos
  have h2 := stepTheta_pos
  nlinarith

/-- For a single character, the loop samples once and interpolates the
point back at the origin (`t = 0` in the interpolation). -/
theorem generate_spiral_positions_one :
    generate_spiral_positions 1 = [((0 : ℝ), (0 : ℝ), stepTheta)] := by
  have hds : Real.sqrt ((spiralR (initState.theta + stepTheta) * Real.cos (initState.theta + stepTheta)
        - initState.lastX) ^ 2
      + (spiralR (initState.theta + stepTheta) * Real.sin (initState.theta + stepTheta)
        - initState.lastY) ^ 2) = spiralR stepTheta := by
    rw [initState_lastX, initState_lastY]
    have hth : initState.theta + stepTheta = stepTheta := by
      simp [initState]
    rw [hth]
    have h1 : (spiralR stepTheta * Real.cos stepTheta - 0) ^ 2
        + (spiralR stepTheta * Real.sin stepTheta - 0) ^ 2 = spiralR stepTheta ^ 2 := by
      have hp := Real.sin_sq_add_cos_sq stepTheta
      linear_combination spiralR stepTheta ^ 2 * hp
    rw [h1, Real.sqrt_sq (spiralR_nonneg stepTheta_pos.le)]
  have hrpos := spiralR_stepTheta_pos
  have hp0 : initState.points = [] := rfl
  have ha0 : initState.arcs = [] := rfl
  have hth0 : initState.theta = (0 : ℝ) := rfl
  have hac0 : initState.accumulated = (0 : ℝ) := rfl
  have htg0 : initState.targetLength = (0 : ℝ) := rfl
  have hstep : (outerStep 1 initState).points = [((0 : ℝ), (0 : ℝ), stepTheta)] := by
    simp only [outerStep]
    rw [hds]
    norm_num [innerEmit, hp0, ha0, hth0, hac0, htg0, initState_lastX, initState_lastY,
      hrpos.le, hrpos.ne', div_self hrpos.ne']
  have hlen : ¬ (outerStep 1 initState).points.length < 1 := by
    rw [hstep]
    simp
  have : spiralFinalState 1 = outerStep 1 initState := by
    rw [spiralFinalState]
    rw [show 105 * 1 + 1 = 105 + 1 from by norm_num]
    rw [outerLoop, if_pos (by simp [initState])]
    exact outerLoop_stop hlen 105
  rw [generate_spiral_positions, this, hstep]


/-! ## Lemmas: tangent estimator, frame composer, CLI -/

/-- On a single point the estimator's first branch reads `points[1]`,
which is out of bounds. -/
theorem compute_tangent_angles_single (p : ℝ × ℝ × ℝ) :
    compute_tangent_angles [p] = none := by
  unfold compute_tangent_angles
  rw [show ([p] : List (ℝ × ℝ × ℝ)).length = 1 from rfl]
  rw [show List.range 1 = [0] from rfl]
  rw [List.mapM_cons]
  simp [tangentPair]

theorem pytrunc_eq_floor {q : ℚ} (h : 0 ≤ q) : pytrunc q = ⌊q⌋ := if_pos h

/-- The composer's `int(C)` is the floor of the (clamped, hence
non-negative) reveal count. -/
theorem visible_count_eq (t : ℚ) (N : ℕ) (a : ℚ) :
    visible_count t N a = max 1 (min (N : ℤ) ⌊chars_revealed_at_time t N a⌋) := by
  unfold visible_count
  rw [pytrunc_eq_floor (chars_revealed_bounds t N a).1]

theorem one_le_visible_count (t : ℚ) (N : ℕ) (a : ℚ) : 1 ≤ visible_count t N a :=
  le_max_left 1 _

theorem one_le_visible_count_toNat (t : ℚ) (N : ℕ) (a : ℚ) :
    1 ≤ (visible_count t N a).toNat := by
  have := one_le_visible_count t N a
  omega

theorem base_radii_getD_nonneg (N i : ℕ) : 0 ≤ (base_radii N).getD i 0 := by
  rcases getD_zero_or_mem (base_radii N) i with h | h
  · rw [h]
  · unfold base_radii at h ⊢
    obtain ⟨p, _, heq⟩ := List.mem_map.mp h
    rw [← heq]
    exact Real.sqrt_nonneg _

theorem pyOrEps_pos {r : ℝ} (h : 0 ≤ r) : 0 < pyOrEps r := by
  unfold pyOrEps
  split_ifs with h0
  · norm_num
  · exact lt_of_le_of_ne h (Ne.symm h0)

theorem visible_adj_r_pos (N : ℕ) (a : ℚ) (k : ℕ) :
    ∀ x ∈ visible_adj_r N a k, 0 < x := by
  intro x hx
  unfold visible_adj_r at hx
  obtain ⟨i, _, rfl⟩ := List.mem_map.mp hx
  have hb := compute_bulge_deltas_getD_nonneg N a i
  exact mul_pos (pyOrEps_pos (base_radii_getD_nonneg N i)) (by linarith)

theorem le_foldl_max (xs : List ℝ) : ∀ x : ℝ, x ≤ xs.foldl max x := by
  induction xs with
  | nil => intro x; exact le_refl x
  | cons a l ih =>
    intro x
    exact le_trans (le_max_left x a) (ih (max x a))

theorem current_max_r_pos (N : ℕ) (a : ℚ) {k : ℕ} (hk : 0 < k) :
    0 < current_max_r N a k := by
  unfold current_max_r
  have hlen : (visible_adj_r N a k).length = k := by
    simp [visible_adj_r]
  cases hv : visible_adj_r N a k with
  | nil =>
    rw [hv] at hlen
    simp at hlen
    omega
  | cons x xs =>
    have hx : 0 < x := visible_adj_r_pos N a k x (by rw [hv]; exact List.mem_cons_self x xs)
    exact lt_of_lt_of_le hx (le_foldl_max xs x)

/-- The auto-zoom divisor is nonzero and the scale is strictly positive,
for every frame and every input. -/
theorem frame_scale_pos (N : ℕ) (a : ℚ) (t : ℚ) :
    current_max_r N a (visible_count t N a).toNat ≠ 0 ∧ 0 < frame_scale N a t := by
  have hm := current_max_r_pos N a (lt_of_lt_of_le Nat.zero_lt_one
    (one_le_visible_count_toNat t N a))
  refine ⟨hm.ne', ?_⟩
  unfold frame_scale
  rw [if_pos hm.ne']
  apply div_pos _ hm
  norm_num [max_r_canvas, canvas_center, CANVAS_SIZE, MARGIN]

/-- The `continue`-on-space loop is filtering then pairing. -/
theorem filterMap_draw_eq (chars : List Char) (l : List ℕ) :
    (l.filterMap fun i => if chars.getD i ' ' = ' ' then none else some (i, chars.getD i ' '))
      = (l.filter fun i => chars.getD i ' ' ≠ ' ').map fun i => (i, chars.getD i ' ') := by
  induction l with
  | nil => rfl
  | cons j l ih =>
    by_cases h : chars.getD j ' ' = ' '
    · rw [List.filterMap_cons, List.filter_cons]
      rw [if_pos h]
      rw [if_neg (by simp only [decide_eq_true_eq]; exact not_not_intro h), ih]
    · rw [List.filterMap_cons, List.filter_cons]
      rw [if_neg h]
      rw [if_pos (by simp only [decide_eq_true_eq]; exact h), ih, List.map_cons]

/-- Membership in the per-frame draw list. -/
theorem frame_draw_list_mem (chars : List Char) (t a : ℚ) (i : ℕ) (c : Char) :
    (i, c) ∈ frame_draw_list chars t a ↔
      i < (visible_count t chars.length a).toNat ∧ chars.getD i ' ' = c ∧ c ≠ ' ' := by
  rw [frame_draw_list, filterMap_draw_eq]
  simp only [List.mem_map, List.mem_filter, List.mem_range, Prod.mk.injEq,
    decide_eq_true_eq]
  constructor
  · rintro ⟨j, ⟨hj, hne⟩, rfl, rfl⟩
    exact ⟨hj, rfl, hne⟩
  · rintro ⟨hi, rfl, hne⟩
    exact ⟨i, ⟨hi, hne⟩, rfl, rfl⟩

/-- The draw list is emitted in strictly increasing index order. -/
theorem frame_draw_list_sorted (chars : List Char) (t a : ℚ) :
    List.Pairwise (fun p q : ℕ × Char => p.1 < q.1) (frame_draw_list chars t a) := by
  rw [frame_draw_list, filterMap_draw_eq]
  refine List.Pairwise.map _ (fun a b h => h) ?_
  exact List.Pairwise.sublist (List.filter_sublist _) (List.pairwise_lt_range _)


/-! ## Claim theorems -/

/-- Claim C1, counterexample to the claim as stated.  Three concrete
failures: (1) for `N = 1` the reveal count at `t = 0` is `1`, not `0`;
(2) for `N = 2`, `anomalyFraction = 0.9`, the slow window is clipped at
the end (`t2 = D`) and the value at `t = totalDuration = 5` is `1.9`,
not `N = 2`; (3) for `N = 502`, `anomalyFraction = 0.15` the window is
clipped at the start (`t1 = 0`, `i1 = 0.15 > 0`) and the curve jumps
from `0` to `1/4` across `[0, 1/1000]` at the breakpoint `t1` — far
beyond floating tolerance, since the slow slope `100` could account for
at most `0.1` of change over that interval. -/
theorem claim_C1_counterexample :
    chars_revealed_at_time 0 1 (1/2) = 1 ∧
    chars_revealed_at_time 5 2 (9/10) = 19/10 ∧
    chars_revealed_at_time 0 502 (3/20) = 0 ∧
    chars_revealed_at_time (1/1000) 502 (3/20) = 1/4 := by
  refine ⟨by norm_num [chars_revealed_at_time], ?_, ?_, ?_⟩ <;>
    norm_num [chars_revealed_at_time, clamp01, reveal_t1, reveal_t2, reveal_C,
      reveal_pre, reveal_mid, reveal_post, reveal_preSlope, reveal_postSlope,
      reveal_slowSlope, reveal_i0, reveal_i1, reveal_i2, reveal_Wchars,
      reveal_halfW, reveal_Weff, SLOW_CHARS_NOMINAL, SLOW_DURATION, DURATION_S,
      min_def, max_def]

/-- Claim C1 (amended): for every `N > 0` and `anomalyFraction ∈ [0,1]`,
`revealedCount` is non-decreasing in `t`; it equals `0` at `t = 0` for
`N ≥ 2` (for `N = 1` it equals `1` at every `t ≥ 0`); it equals `N` for
every `t` strictly beyond `totalDuration`, and for `t = totalDuration`
too provided the slow window is not clipped at the end (`t2 < D`); and
the piecewise-linear pieces agree exactly at the breakpoint `t1`
whenever `t1 > 0` and at `t2` whenever `t2 < D` (at a clipped window
boundary the curve can jump, as the counterexample shows). -/
theorem claim_C1 (N : ℕ) (a t t' : ℚ) (hN : 0 < N) (h0 : 0 ≤ a) (h1 : a ≤ 1) :
    (t ≤ t' → chars_revealed_at_time t N a ≤ chars_revealed_at_time t' N a) ∧
    (2 ≤ N → chars_revealed_at_time 0 N a = 0) ∧
    (N = 1 → 0 ≤ t → chars_revealed_at_time t N a = 1) ∧
    (DURATION_S < t → chars_revealed_at_time t N a = (N : ℚ)) ∧
    (2 ≤ N → reveal_t2 a < DURATION_S → DURATION_S ≤ t →
      chars_revealed_at_time t N a = (N : ℚ)) ∧
    (0 < reveal_t1 a → reveal_pre N a (reveal_t1 a) = reveal_mid N a (reveal_t1 a)) ∧
    (2 ≤ N → reveal_t2 a < DURATION_S →
      reveal_mid N a (reveal_t2 a) = reveal_post N a (reveal_t2 a)) := by
  have hca := clamp01_eq h0 h1
  refine ⟨fun h => chars_revealed_mono N a h,
    fun h2 => chars_revealed_at_zero h2 a,
    fun h2 ht => by rw [h2]; exact chars_revealed_single ht a,
    fun ht => chars_revealed_after_D hN ht a,
    fun h2 hta htD => chars_revealed_at_D h2 (by rw [hca]; exact hta) htD,
    fun ht => reveal_pre_eq_mid_at_t1 N ht,
    fun h2 hta => reveal_mid_eq_post_at_t2 h2 h0 h1⟩

/-- Claim C1 witness: the amended theorem applied at `N = 2`,
`anomalyFraction = 1/2`, `t = 0`, `t' = 1`. -/
theorem claim_C1_witness :
    chars_revealed_at_time 0 2 (1/2) ≤ chars_revealed_at_time 1 2 (1/2) ∧
    chars_revealed_at_time 0 2 (1/2) = 0 := by
  have h := claim_C1 2 (1/2) 0 1 (by norm_num) (by norm_num) (by norm_num)
  exact ⟨h.1 (by norm_num), h.2.1 (by norm_num)⟩

/-- Claim C2: for every `numChars ≥ 0` and `anomalyFraction ∈ [0,1]` the
bulge-delta sequence is non-decreasing in index, exactly zero at every
index whose normalized position `i / (N-1)` is at or before the anomaly
fraction, non-negative, and bounded above by the amplitude. -/
theorem claim_C2 (N : ℕ) (a : ℚ) (h0 : 0 ≤ a) (h1 : a ≤ 1) :
    (∀ i j, i ≤ j → j < (compute_bulge_deltas N a).length →
      (compute_bulge_deltas N a).getD i 0 ≤ (compute_bulge_deltas N a).getD j 0) ∧
    (∀ i, bulge_tchar N i ≤ a → (compute_bulge_deltas N a).getD i 0 = 0) ∧
    (∀ i, 0 ≤ (compute_bulge_deltas N a).getD i 0) ∧
    (∀ i, (compute_bulge_deltas N a).getD i 0 ≤ BULGE_AMP) :=
  ⟨fun _ _ hij hj => compute_bulge_deltas_mono N a hij hj,
   fun _ hi => compute_bulge_deltas_prefix_zero N h0 h1 hi,
   fun i => compute_bulge_deltas_getD_nonneg N a i,
   fun i => compute_bulge_deltas_getD_le_amp N a i⟩

/-- Claim C2 witness: the theorem applied at `N = 3`,
`anomalyFraction = 1/2`, indices `0` and `1`. -/
theorem claim_C2_witness :
    (compute_bulge_deltas 3 (1/2)).getD 0 0 = 0 ∧
    0 ≤ (compute_bulge_deltas 3 (1/2)).getD 1 0 := by
  have h := claim_C2 3 (1/2) (by norm_num) (by norm_num)
  exact ⟨h.2.1 0 (by norm_num [bulge_tchar]), h.2.2.1 1⟩

/-- Claim C3: the spiral builder terminates (the loop's exit is reached
within the stated fuel) and returns exactly `numChars` points, the empty
sequence for `numChars = 0`; and for `N ≥ 2` consecutive returned points
are separated by exactly `charSpacing` of arc length along the sampled
polyline (the length the algorithm accumulates in `accumulated_length`),
in particular within the `stepTheta`-bounded error of `charSpacing`. -/
theorem claim_C3 (N : ℕ) :
    (generate_spiral_positions N).length = N ∧
    generate_spiral_positions 0 = [] ∧
    (spiralArcs N).length = N ∧
    (∀ k, k + 1 < N →
      (spiralArcs N).getD (k + 1) 0 - (spiralArcs N).getD k 0 = CHAR_SPACING ∧
      |(spiralArcs N).getD (k + 1) 0 - (spiralArcs N).getD k 0 - CHAR_SPACING|
        ≤ stepTheta) := by
  refine ⟨generate_spiral_positions_length N, generate_spiral_positions_zero, ?_, ?_⟩
  · rw [spiralArcs_eq]
    simp
  · intro k hk
    rw [spiralArcs_getD hk, spiralArcs_getD (by omega : k < N)]
    constructor
    · push_cast
      ring
    · rw [show ((k : ℕ) + 1 : ℕ) = k + 1 from rfl]
      push_cast
      norm_num [CHAR_SPACING, stepTheta]

/-- Claim C3 witness: the theorem applied at `N = 2`, `k = 0`. -/
theorem claim_C3_witness :
    (spiralArcs 2).getD 1 0 - (spiralArcs 2).getD 0 0 = CHAR_SPACING :=
  ((claim_C3 2).2.2.2 0 (by norm_num)).1

/-- Claim C4 (code bug): for a single character the three numeric models
behave as the spec says — one spiral point at the world origin,
`revealedCount = 1` for every `t ≥ 0`, bulge deltas `[0.0]` — but the
pipeline does not run to completion: the tangent estimator, called
unconditionally by the composer, indexes `points[1]` in a one-point list
(modelled by `none`), so `create_spiral_gif` raises `IndexError` for any
single-character text. -/
theorem claim_C4 (t a : ℚ) (ht : 0 ≤ t) :
    generate_spiral_positions 1 = [((0 : ℝ), (0 : ℝ), stepTheta)] ∧
    compute_tangent_angles (generate_spiral_positions 1) = none ∧
    chars_revealed_at_time t 1 a = 1 ∧
    compute_bulge_deltas 1 a = [0] := by
  refine ⟨generate_spiral_positions_one, ?_, chars_revealed_single ht a, ?_⟩
  · rw [generate_spiral_positions_one]
    exact compute_tangent_angles_single _
  · unfold compute_bulge_deltas
    norm_num

/-- Claim C4 witness: the theorem applied at `t = 0`,
`anomalyFraction = 1/2`. -/
theorem claim_C4_witness :
    compute_tangent_angles (generate_spiral_positions 1) = none ∧
    chars_revealed_at_time 0 1 (1/2) = 1 :=
  ⟨(claim_C4 0 (1/2) (by norm_num)).2.1, (claim_C4 0 (1/2) (by norm_num)).2.2.1⟩

/-- Claim C5: for every frame time, `N > 0` and
`anomalyFraction ∈ [0,1]`, the reveal count is clamped to `[0, N]`, the
composer's integer visible count equals
`max(1, min(N, floor(revealedCount)))` (Python `int` truncation agrees
with `floor` on the clamped, non-negative value), and at least one
character is shown in every frame. -/
theorem claim_C5 (idx N : ℕ) (a : ℚ) (hN : 0 < N) (h0 : 0 ≤ a) (h1 : a ≤ 1) :
    (0 ≤ chars_revealed_at_time (frame_time idx) N a ∧
      chars_revealed_at_time (frame_time idx) N a ≤ (N : ℚ)) ∧
    visible_count (frame_time idx) N a
      = max 1 (min (N : ℤ) ⌊chars_revealed_at_time (frame_time idx) N a⌋) ∧
    1 ≤ visible_count (frame_time idx) N a :=
  ⟨chars_revealed_bounds _ N a, visible_count_eq _ N a, one_le_visible_count _ N a⟩

/-- Claim C5 witness: the theorem applied at frame `0`, `N = 1`,
`anomalyFraction = 0`. -/
theorem claim_C5_witness : 1 ≤ visible_count (frame_time 0) 1 0 :=
  (claim_C5 0 1 0 (by norm_num) (by norm_num) (by norm_num)).2.2

/-- Claim C6, counterexample to the claim as stated: with
`anomalyFraction = 0` and `N = 2` the delta of the *first* character
(index 0, normalized position `0 ≤ 0`) is exactly `0`, not positive. -/
theorem claim_C6_counterexample : (compute_bulge_deltas 2 0).getD 0 1 = 0 := by
  rw [compute_bulge_deltas_eq (by norm_num) 0]
  rw [show List.range 2 = [0, 1] from rfl]
  rw [List.map_cons, List.map_cons, List.map_nil]
  have hr0 : bulge_raw 2 (clamp01 0) 0 = 0 := by
    unfold bulge_raw
    rw [if_pos]
    norm_num [bulge_tchar, clamp01]
  simp [runningMax, hr0]

/-- Claim C6 (amended): for `N ≥ 2`, with `anomalyFraction = 0` the
first character's delta is `0` and every delta from the second character
onward (indices `1 ≤ i < N`) is strictly positive; with
`anomalyFraction = 1` every delta is zero. -/
theorem claim_C6 (N : ℕ) (hN : 2 ≤ N) :
    (compute_bulge_deltas N 0).getD 0 0 = 0 ∧
    (∀ i, 1 ≤ i → i < N → 0 < (compute_bulge_deltas N 0).getD i 0) ∧
    (∀ i, (compute_bulge_deltas N 1).getD i 0 = 0) := by
  have hden : (0 : ℚ) < (N : ℚ) - 1 := by
    have : (2 : ℚ) ≤ (N : ℚ) := by exact_mod_cast hN
    linarith
  refine ⟨?_, fun i h1 h2 => compute_bulge_deltas_pos_of_zero_frac hN h1 h2, ?_⟩
  · exact compute_bulge_deltas_prefix_zero N (le_refl 0) (by norm_num)
      (by norm_num [bulge_tchar])
  · intro i
    rcases lt_or_le i N with hiN | hiN
    · refine compute_bulge_deltas_prefix_zero N (by norm_num) (le_refl 1) ?_
      unfold bulge_tchar
      rw [div_le_one hden]
      have : (i : ℚ) + 1 ≤ (N : ℚ) := by exact_mod_cast hiN
      linarith
    · rw [List.getD_eq_default]
      rw [compute_bulge_deltas_length]
      exact hiN

/-- Claim C6 witness: the amended theorem applied at `N = 2`, index `1`. -/
theorem claim_C6_witness : 0 < (compute_bulge_deltas 2 0).getD 1 0 :=
  (claim_C6 2 (by norm_num)).2.1 1 (by norm_num) (by norm_num)

/-- Claim C7: an unparseable anomaly percentage falls back to `70`, any
percentage is clamped into `[0,100]` (never rejected), and the fraction
passed to the models is the clamped percentage divided by `100`, itself
clamped to `[0,1]` (a no-op after the percentage clamp). -/
theorem claim_C7 (raw : Option ℚ) (p : ℚ) :
    parse_anomaly_pct none = 70 ∧
    parse_anomaly_pct (some p) = p ∧
    (0 ≤ clamp_pct p ∧ clamp_pct p ≤ 100) ∧
    (p < 0 → clamp_pct p = 0) ∧
    (100 < p → clamp_pct p = 100) ∧
    (0 ≤ p → p ≤ 100 → clamp_pct p = p) ∧
    main_anomaly_frac raw = max 0 (min 1 (clamp_pct (parse_anomaly_pct raw) / 100)) ∧
    (0 ≤ main_anomaly_frac raw ∧ main_anomaly_frac raw ≤ 1) ∧
    main_anomaly_frac raw = clamp_pct (parse_anomaly_pct raw) / 100 := by
  have hb : ∀ q : ℚ, 0 ≤ clamp_pct q ∧ clamp_pct q ≤ 100 := by
    intro q
    exact ⟨le_max_left 0 _, max_le (by norm_num) (min_le_left 100 q)⟩
  refine ⟨rfl, rfl, hb p, ?_, ?_, ?_, rfl, ?_, ?_⟩
  · intro h
    unfold clamp_pct
    rw [min_eq_right (by linarith), max_eq_left (by linarith)]
  · intro h
    unfold clamp_pct
    rw [min_eq_left (by linarith)]
    norm_num
  · intro h0 h100
    unfold clamp_pct
    rw [min_eq_right h100, max_eq_right h0]
  · constructor
    · exact le_max_left 0 _
    · exact max_le (by norm_num) (min_le_left 1 _)
  · obtain ⟨hq0, hq100⟩ := hb (parse_anomaly_pct raw)
    unfold main_anomaly_frac anomaly_frac_of_pct
    rw [min_eq_right (by rw [div_le_one] <;> linarith),
      max_eq_right (by positivity)]

/-- Claim C7 witness: the theorem applied at `raw = none`, `p = -5`. -/
theorem claim_C7_witness : parse_anomaly_pct none = 70 ∧ clamp_pct (-5) = 0 :=
  ⟨(claim_C7 none (-5)).1, (claim_C7 none (-5)).2.2.2.1 (by norm_num)⟩

/-- Claim C8, counterexample to the claim as stated: the inter-frame
display duration handed to the encoder is `int(1000 / FPS) = 33`
milliseconds, which is not `1000 / FPS = 33.33...` milliseconds. -/
theorem claim_C8_counterexample : (gif_save_args.duration : ℚ) ≠ 1000 / (FPS : ℚ) := by
  have h : gif_save_args.duration = 33 := by
    show FRAME_DURATION_MS = 33
    norm_num [FRAME_DURATION_MS, pytrunc, FPS]
  rw [h]
  norm_num [FPS]

/-- Claim C8 (amended): the number of frames produced is
`NUM_FRAMES = 150`, which equals `round(FPS * durationSeconds)` (the
source's `int` truncation agrees with `round` because `30 * 5.0` is
exact); the inter-frame display duration is `floor(1000 / FPS) = 33`
milliseconds — the truncation of, not exactly, `1000 / FPS`; and the
animation loops indefinitely (`loop = 0`). -/
theorem claim_C8 :
    frame_times.length = NUM_FRAMES ∧
    NUM_FRAMES = 150 ∧
    (NUM_FRAMES : ℤ) = round ((FPS : ℚ) * DURATION_S) ∧
    gif_save_args.duration = ⌊(1000 : ℚ) / (FPS : ℚ)⌋ ∧
    gif_save_args.loopCount = 0 := by
  have h150 : NUM_FRAMES = 150 := by
    norm_num [NUM_FRAMES, pytrunc, FPS, DURATION_S]
    rfl
  refine ⟨by simp [frame_times], h150, ?_, ?_, rfl⟩
  · rw [h150, show (FPS : ℚ) * DURATION_S = ((150 : ℤ) : ℚ) from by
      norm_num [FPS, DURATION_S]]
    rw [round_intCast]
    norm_num
  · show FRAME_DURATION_MS = ⌊(1000 : ℚ) / (FPS : ℚ)⌋
    norm_num [FRAME_DURATION_MS, pytrunc, FPS]

/-- Claim C9: in every frame the characters drawn are exactly the
non-space characters with index strictly below the visible count, in
increasing index order (the draw list is sorted by index); space
characters occupy their slot — they have a spiral point (the builder
returns one point per character, spaces included) and are counted in the
`numChars` from which the visible count is derived — but are never
drawn. -/
theorem claim_C9 (chars : List Char) (t a : ℚ) :
    (∀ i c, (i, c) ∈ frame_draw_list chars t a ↔
      i < (visible_count t chars.length a).toNat ∧ chars.getD i ' ' = c ∧ c ≠ ' ') ∧
    List.Pairwise (fun p q : ℕ × Char => p.1 < q.1) (frame_draw_list chars t a) ∧
    (generate_spiral_positions chars.length).length = chars.length :=
  ⟨fun i c => frame_draw_list_mem chars t a i c,
   frame_draw_list_sorted chars t a,
   generate_spiral_positions_length chars.length⟩

/-- Claim C10: for every frame and run the auto-zoom divisor
`currentMaxRadius` is nonzero (the zero radius of the origin point is
replaced by the `1e-6` epsilon before entering the maximum) and the
scale factor is strictly positive. -/
theorem claim_C10 (idx N : ℕ) (a : ℚ) (hN : 0 < N) (h0 : 0 ≤ a) (h1 : a ≤ 1) :
    current_max_r N a (visible_count (frame_time idx) N a).toNat ≠ 0 ∧
    0 < frame_scale N a (frame_time idx) :=
  frame_scale_pos N a (frame_time idx)

/-- Claim C10 witness: the theorem applied at frame `0`, `N = 1`,
`anomalyFraction = 0` — the first frame shows only the origin point. -/
theorem claim_C10_witness : 0 < frame_scale 1 0 (frame_time 0) :=
  (claim_C10 0 1 0 (by norm_num) (by norm_num) (by norm_num)).2

end MemorySpiral
